import Mathlib

/-!
Verification of the AgentVerse restaurant-discovery core: the dietary/allergen
match scorer (`generateRestaurantData`'s `enrichedMenu` helpers), the
collaborative-filtering recommendation engine (`calculateUserSimilarity`,
`getTypeScriptRecommendations`), and the in-flight caching of
`loadDefaultFavorites` / `generateDashboardRecommendations`.

Numbers are modelled exactly: menu match scores are naturals, ratings are
rationals, and cosine similarities (which involve square roots) are reals.
JavaScript's stable `Array.prototype.sort` is modelled by `List.insertionSort`,
which is also stable, so for the consistent comparators used here the orders
agree.
-/

namespace AgentVerse

/-! ### String helpers: JS `String.prototype.includes` on lowercased text -/

/-- Is `sub` a leading segment of `l`?  Building block for substring search. -/
def leadsChars : List Char → List Char → Bool
  | [], _ => true
  | _ :: _, [] => false
  | a :: as, b :: bs => a == b && leadsChars as bs

/-- Does `hay` contain `sub` as a contiguous run?  (`hay.includes(sub)`.) -/
def containsChars (sub : List Char) : List Char → Bool
  | [] => leadsChars sub []
  | b :: bs => leadsChars sub (b :: bs) || containsChars sub bs

/-- JS `hay.includes(sub)` on strings. -/
def strIncludes (hay sub : String) : Bool :=
  containsChars sub.data hay.data

/-- ASCII lower-casing of one character.  The JS sources lower-case both sides
before every comparison, and every keyword involved is ASCII, so ASCII
lower-casing models `toLowerCase` exactly on the relevant alphabet. -/
def charLower (c : Char) : Char :=
  if 'A' ≤ c ∧ c ≤ 'Z' then Char.ofNat (c.toNat + 32) else c

/-- Model of `s.toLowerCase()`. -/
def strLower (s : String) : String :=
  ⟨s.data.map charLower⟩

/-- JS `Array.prototype.join(' ')`. -/
def joinSpace : List String → String
  | [] => ""
  | [s] => s
  | s :: rest => s ++ " " ++ joinSpace rest

/-! ### Menu items and the dietary filter (`openaiService`, `matchesDietaryRequirements`) -/

/-- A menu item as consumed by the scoring helpers.  `dietaryTags` models
`item.healthInfo?.dietaryTags`, with `[]` for an absent nutrition block
(optional chaining yields `undefined`, which every use guards to empty). -/
structure Item where
  name : String
  description : String
  tags : List String
  dietaryTags : List String
deriving DecidableEq

/-- The normalized text the heuristics search:
`` `${name} ${description} ${tags.join(' ')} ${dietaryTags.join(' ') || ''}`.toLowerCase() ``. -/
def itemText (item : Item) : String :=
  let raw := item.name ++ " " ++ item.description ++ " " ++ joinSpace item.tags ++ " " ++
    joinSpace item.dietaryTags
  strLower raw

def nonVeganWords : List String :=
  ["chicken", "beef", "pork", "fish", "seafood", "meat", "dairy", "cheese", "milk",
   "butter", "egg", "shrimp", "salmon", "tuna", "turkey", "lamb", "bacon", "honey"]

def nonVegetarianWords : List String :=
  ["chicken", "beef", "pork", "fish", "seafood", "meat", "shrimp", "salmon", "tuna",
   "turkey", "lamb", "bacon", "ham"]

def glutenWords : List String :=
  ["wheat", "flour", "bread", "pasta", "noodles", "soy sauce", "beer"]

def highCarbWords : List String :=
  ["rice", "bread", "pasta", "potato", "fries", "noodles", "quinoa", "barley"]

def nonPaleoWords : List String :=
  ["dairy", "cheese", "milk", "wheat", "bread", "rice", "legumes", "beans"]

/-- The per-requirement check: the body of the `preferences.every(pref => ...)`
callback in `matchesDietaryRequirements`. -/
def requirementSatisfied (item : Item) (pref : String) : Bool :=
  let prefLower := strLower pref
  let text := itemText item
  if item.tags.any fun tag => strIncludes (strLower tag) prefLower then true
  else if item.dietaryTags.any fun tag => strIncludes (strLower tag) prefLower then true
  else if strIncludes prefLower "vegan" then
    !(nonVeganWords.any fun non => strIncludes text non)
  else if strIncludes prefLower "vegetarian" then
    !(nonVegetarianWords.any fun non => strIncludes text non)
  else if strIncludes prefLower "gluten-free" || strIncludes prefLower "gluten" then
    !(glutenWords.any fun g => strIncludes text g)
  else if strIncludes prefLower "keto" then
    !(highCarbWords.any fun carb => strIncludes text carb)
  else if strIncludes prefLower "paleo" then
    !(nonPaleoWords.any fun non => strIncludes text non)
  else strIncludes text prefLower

/-- Model of `matchesDietaryRequirements(item, preferences)`: empty preferences always
pass; otherwise every preference must individually pass. -/
def matchesDietaryRequirements (item : Item) (preferences : List String) : Bool :=
  if preferences.isEmpty then true
  else preferences.all (requirementSatisfied item)

/-- Model of `isAllergenSafe(item, allergens)`: no allergen may occur case-insensitively
inside name + description (tags and nutrition are not consulted). -/
def isAllergenSafe (item : Item) (allergens : List String) : Bool :=
  if allergens.isEmpty then true
  else
    let text := strLower (item.name ++ " " ++ item.description)
    !(allergens.any fun allergen => strIncludes text (strLower allergen))

/-! ### Match scoring (`enrichedMenu` mapping in `generateRestaurantData`) -/

/-- The taste-profile condition that gains +15 in the scorer. -/
def tasteMatches (item : Item) (tasteProfile : List String) : Bool :=
  tasteProfile.any fun t =>
    (item.tags.any fun tag => strIncludes (strLower tag) (strLower t)) ||
    strIncludes (strLower item.name) (strLower t) ||
    strIncludes (strLower item.description) (strLower t)

/-- The name-based taste reason pushed first onto `matchReasons`. -/
def nameMatchReason (item : Item) (tasteProfile : List String) : List String :=
  if tasteProfile.any fun t => strIncludes (strLower item.name) (strLower t) then
    ["Matches your \"" ++
      ((tasteProfile.find? fun t => strIncludes (strLower item.name) (strLower t)).getD "") ++
      "\" preference"]
  else []

/-- Result of enriching one menu item with a match score. -/
structure EnrichResult where
  id : String
  matchScore : ℕ
  matchReasons : Option (List String)
deriving DecidableEq

/-- One step of the `enrichedMenu` map.  `base` stands for the pseudo-random
`Math.floor(Math.random() * 30) + 60`, always in `[60, 90)`; it is passed
explicitly so every possible draw can be reasoned about. -/
def enrichItem (item : Item) (index : ℕ) (tasteProfile dietaryPreferences allergens : List String)
    (base : ℕ) : EnrichResult :=
  let meetsDietaryReqs := matchesDietaryRequirements item dietaryPreferences
  let allergenSafe := isAllergenSafe item allergens
  if (dietaryPreferences ≠ [] ∧ meetsDietaryReqs = false) ∨ allergenSafe = false then
    { id := toString (index + 1), matchScore := 0, matchReasons := none }
  else
    let s1 := base
    let s2 := if tasteMatches item tasteProfile then s1 + 15 else s1
    let s3 := if dietaryPreferences ≠ [] ∧ meetsDietaryReqs = true then s2 + 30 else s2
    let score := min 100 s3
    let reasons := nameMatchReason item tasteProfile ++
      (if dietaryPreferences ≠ [] ∧ meetsDietaryReqs = true then
        ["Perfect for " ++ dietaryPreferences.headD "" ++ " diet"] else [])
    { id := toString (index + 1), matchScore := score,
      matchReasons := if reasons = [] then none else some reasons }

/-- The Dashboard "top matches" predicate:
`(item.matchScore || 0) >= 85 && (item.matchScore || 0) > 0`. -/
def isPerfectMatch (matchScore : Option ℕ) : Bool :=
  decide (85 ≤ matchScore.getD 0) && decide (0 < matchScore.getD 0)

/-! ### Sample items used to witness the scorer theorems -/

def beefLasagna : Item :=
  ⟨"Beef Lasagna", "layers of pasta with rich beef ragu", ["Italian", "Comfort Food"], []⟩

def veggieSandwich : Item :=
  ⟨"Veggie Sandwich", "fresh bread with grilled vegetables", ["Vegan"], []⟩

def satay : Item :=
  ⟨"Satay Skewers", "grilled chicken with peanut sauce", ["Thai"], []⟩

def tofuBowl : Item :=
  ⟨"Tofu Bowl", "steamed vegetables over tofu", [], []⟩

/-! ### Scorer theorems -/

lemma matches_false_of_unsat (item : Item) (prefs : List String) (p : String)
    (hp : p ∈ prefs) (hf : requirementSatisfied item p = false) :
    matchesDietaryRequirements item prefs = false := by
  have hne : prefs ≠ [] := by rintro rfl; exact absurd hp (List.not_mem_nil p)
  unfold matchesDietaryRequirements
  rw [if_neg (by simp [hne])]
  rw [Bool.eq_false_iff]
  intro h
  have := List.all_eq_true.mp h p hp
  rw [hf] at this
  exact absurd this (by simp)

lemma allergenSafe_false_of_mem (item : Item) (allergens : List String) (a : String)
    (ha : a ∈ allergens)
    (hinc : strIncludes (strLower (item.name ++ " " ++ item.description)) (strLower a) = true) :
    isAllergenSafe item allergens = false := by
  have hne : allergens ≠ [] := by rintro rfl; exact absurd ha (List.not_mem_nil a)
  unfold isAllergenSafe
  rw [if_neg (by simp [hne])]
  simp only [Bool.not_eq_false', List.any_eq_true]
  exact ⟨a, ha, hinc⟩

lemma enrich_eq_zero (item : Item) (index : ℕ)
    (tasteProfile dietaryPreferences allergens : List String) (base : ℕ)
    (h : (dietaryPreferences ≠ [] ∧ matchesDietaryRequirements item dietaryPreferences = false) ∨
      isAllergenSafe item allergens = false) :
    enrichItem item index tasteProfile dietaryPreferences allergens base =
      ⟨toString (index + 1), 0, none⟩ := by
  simp only [enrichItem]
  rw [if_pos h]

/-- C1: with a non-empty requirement set, an item that misses any single
requirement, or whose name + description contains any allergen
case-insensitively, is enriched with match score 0 and no reasons, for every
value of the pseudo-random base and every taste profile. -/
theorem enrich_zero_on_unsatisfied_or_allergen (item : Item) (index : ℕ)
    (tasteProfile dietaryPreferences allergens : List String) (base : ℕ)
    (hne : dietaryPreferences ≠ [])
    (hviol : (∃ p ∈ dietaryPreferences, requirementSatisfied item p = false) ∨
      (∃ a ∈ allergens,
        strIncludes (strLower (item.name ++ " " ++ item.description)) (strLower a) = true)) :
    (enrichItem item index tasteProfile dietaryPreferences allergens base).matchScore = 0 ∧
    (enrichItem item index tasteProfile dietaryPreferences allergens base).matchReasons = none := by
  have h : (dietaryPreferences ≠ [] ∧
      matchesDietaryRequirements item dietaryPreferences = false) ∨
      isAllergenSafe item allergens = false := by
    rcases hviol with ⟨p, hp, hf⟩ | ⟨a, ha, hinc⟩
    · exact Or.inl ⟨hne, matches_false_of_unsat item dietaryPreferences p hp hf⟩
    · exact Or.inr (allergenSafe_false_of_mem item allergens a ha hinc)
  rw [enrich_eq_zero item index tasteProfile dietaryPreferences allergens base h]
  exact ⟨rfl, rfl⟩

theorem enrich_zero_on_unsatisfied_or_allergen_witness :
    ((["Vegan"] : List String) ≠ [] ∧
      (enrichItem beefLasagna 0 ["Rich"] ["Vegan"] [] 70).matchScore = 0 ∧
      (enrichItem beefLasagna 0 ["Rich"] ["Vegan"] [] 70).matchReasons = none) ∧
    ((["Thai"] : List String) ≠ [] ∧
      (enrichItem satay 2 ["Savory"] ["Thai"] ["Peanut"] 89).matchScore = 0 ∧
      (enrichItem satay 2 ["Savory"] ["Thai"] ["Peanut"] 89).matchReasons = none) :=
  ⟨⟨by decide,
    enrich_zero_on_unsatisfied_or_allergen beefLasagna 0 ["Rich"] ["Vegan"] [] 70
      (by decide) (Or.inl (by decide))⟩,
   ⟨by decide,
    enrich_zero_on_unsatisfied_or_allergen satay 2 ["Savory"] ["Thai"] ["Peanut"] 89
      (by decide) (Or.inr (by decide))⟩⟩

/-- C2: with a non-empty requirement set the compliance check succeeds exactly
when every requirement is individually satisfied, and an item failing any one
requirement is non-compliant and scores 0. -/
theorem dietCompliance_iff_all_satisfied (item : Item) (preferences : List String)
    (hne : preferences ≠ []) :
    (matchesDietaryRequirements item preferences = true ↔
      ∀ p ∈ preferences, requirementSatisfied item p = true) ∧
    (∀ p ∈ preferences, requirementSatisfied item p = false →
      matchesDietaryRequirements item preferences = false ∧
      ∀ (index : ℕ) (tasteProfile allergens : List String) (base : ℕ),
        (enrichItem item index tasteProfile preferences allergens base).matchScore = 0) := by
  constructor
  · unfold matchesDietaryRequirements
    rw [if_neg (by simp [hne])]
    exact List.all_eq_true
  · intro p hp hf
    have hfalse := matches_false_of_unsat item preferences p hp hf
    refine ⟨hfalse, fun index tasteProfile allergens base => ?_⟩
    rw [enrich_eq_zero item index tasteProfile preferences allergens base
      (Or.inl ⟨hne, hfalse⟩)]

theorem dietCompliance_iff_all_satisfied_witness :
    ((["Vegan", "Gluten-Free"] : List String) ≠ [] ∧
      requirementSatisfied veggieSandwich "Vegan" = true ∧
      requirementSatisfied veggieSandwich "Gluten-Free" = false) ∧
    matchesDietaryRequirements veggieSandwich ["Vegan", "Gluten-Free"] = false ∧
    (enrichItem veggieSandwich 0 ["Fresh"] ["Vegan", "Gluten-Free"] [] 89).matchScore = 0 :=
  ⟨⟨by decide, by decide, by decide⟩,
   ((dietCompliance_iff_all_satisfied veggieSandwich ["Vegan", "Gluten-Free"] (by decide)).2
      "Gluten-Free" (by decide) (by decide)).1,
   ((dietCompliance_iff_all_satisfied veggieSandwich ["Vegan", "Gluten-Free"] (by decide)).2
      "Gluten-Free" (by decide) (by decide)).2 0 ["Fresh"] [] 89⟩

/-- C3 counterexample: an allergen-safe item with no requirements and no taste
match, enriched with the pseudo-random base 85 (a legal draw, since the base
ranges over [60, 90)), gets match score 85 and so does enter the
perfect-match bucket, refuting "strictly below 85 for every possible base". -/
theorem base_alone_reaches_perfect_match :
    isAllergenSafe tofuBowl [] = true ∧
    tasteMatches tofuBowl [] = false ∧
    60 ≤ 85 ∧ 85 < 90 ∧
    (enrichItem tofuBowl 0 [] [] [] 85).matchScore = 85 ∧
    isPerfectMatch (some (enrichItem tofuBowl 0 [] [] [] 85).matchScore) = true := by
  decide

/-- C3 amended: for an allergen-safe item with empty requirements and no
taste-keyword match, the match score equals the pseudo-random base, so it
stays strictly below 85 exactly when the base draw is below 85; draws in
[85, 90) put the item into the perfect-match bucket. -/
theorem enrich_score_eq_base_without_signals (item : Item) (index : ℕ)
    (tasteProfile allergens : List String) (base : ℕ)
    (hsafe : isAllergenSafe item allergens = true)
    (htaste : tasteMatches item tasteProfile = false)
    (hlo : 60 ≤ base) (hhi : base < 90) :
    (enrichItem item index tasteProfile [] allergens base).matchScore = base ∧
    ((enrichItem item index tasteProfile [] allergens base).matchScore < 85 ↔ base < 85) ∧
    (isPerfectMatch (some (enrichItem item index tasteProfile [] allergens base).matchScore)
        = true ↔ 85 ≤ base) := by
  have hbase : (enrichItem item index tasteProfile [] allergens base).matchScore = base := by
    simp only [enrichItem]
    rw [if_neg (by simp [hsafe])]
    simp only [htaste, if_false, ne_eq, not_true_eq_false, false_and, if_false]
    exact Nat.min_eq_right (le_of_lt (lt_of_lt_of_le hhi (by norm_num)))
  refine ⟨hbase, by rw [hbase], ?_⟩
  rw [hbase]
  unfold isPerfectMatch
  simp only [Option.getD_some, Bool.and_eq_true, decide_eq_true_eq]
  constructor
  · exact fun h => h.1
  · exact fun h => ⟨h, lt_of_lt_of_le (by norm_num) hlo⟩

theorem enrich_score_eq_base_without_signals_witness :
    (isAllergenSafe tofuBowl [] = true ∧ tasteMatches tofuBowl [] = false ∧
      60 ≤ 70 ∧ 70 < 90) ∧
    (enrichItem tofuBowl 0 [] [] [] 70).matchScore = 70 ∧
    ((enrichItem tofuBowl 0 [] [] [] 70).matchScore < 85 ↔ 70 < 85) :=
  ⟨⟨by decide, by decide, by decide, by decide⟩,
   (enrich_score_eq_base_without_signals tofuBowl 0 [] [] 70
      (by decide) (by decide) (by decide) (by decide)).1,
   (enrich_score_eq_base_without_signals tofuBowl 0 [] [] 70
      (by decide) (by decide) (by decide) (by decide)).2.1⟩

/-! ### Rating data (`findMyFoodService`) -/

/-- One synthetic rating record from `REVIEW_DATA`. -/
structure Review where
  user_id : ℕ
  restaurant_name : String
  dish_name : String
  rating : ℚ
  cuisine_type : String
deriving DecidableEq

/-- The hardcoded synthetic review fixture, transcribed verbatim. -/
def REVIEW_DATA : List Review := [
  ⟨1, "Dishoom", "Chicken Ruby", 5, "Indian"⟩,
  ⟨1, "Dishoom", "House Black Daal", 5, "Indian"⟩,
  ⟨1, "Barrafina", "Jamón Ibérico", 4, "Spanish"⟩,
  ⟨1, "Hoppers", "Bone Marrow Varuval", 5, "Sri Lankan"⟩,
  ⟨1, "Bao", "Classic Bao", 4, "Taiwanese"⟩,
  ⟨2, "Dishoom", "Chicken Ruby", 5, "Indian"⟩,
  ⟨2, "Dishoom", "Pau Bhaji", 4, "Indian"⟩,
  ⟨2, "Gymkhana", "Kid Goat Methi Keema", 5, "Indian"⟩,
  ⟨2, "Hoppers", "Bone Marrow Varuval", 5, "Sri Lankan"⟩,
  ⟨2, "Bao", "Classic Bao", 4, "Taiwanese"⟩,
  ⟨2, "Kiln", "Grilled Tamworth Pork Jowl", 5, "Thai"⟩,
  ⟨3, "Barrafina", "Jamón Ibérico", 5, "Spanish"⟩,
  ⟨3, "Barrafina", "Txangurro", 4, "Spanish"⟩,
  ⟨3, "Sabor", "Iberico Presa", 5, "Portuguese"⟩,
  ⟨3, "Bao", "Classic Bao", 4, "Taiwanese"⟩,
  ⟨3, "Kiln", "Clay Pot Glass Noodles", 5, "Thai"⟩,
  ⟨3, "Sabor", "Piri Piri Chicken", 5, "Portuguese"⟩,
  ⟨4, "Hoppers", "Bone Marrow Varuval", 4, "Sri Lankan"⟩,
  ⟨4, "Gymkhana", "Kid Goat Methi Keema", 5, "Indian"⟩,
  ⟨4, "Gymkhana", "Muntjac Biryani", 5, "Indian"⟩,
  ⟨4, "Trishna", "Dorset Brown Crab", 5, "Indian"⟩,
  ⟨4, "Dishoom", "House Black Daal", 4, "Indian"⟩,
  ⟨4, "Trishna", "Tandoori Lamb Chops", 5, "Indian"⟩]

/-- The hardcoded `USER_PROFILES` directory, as (id, name) pairs. -/
def USER_PROFILES : List (ℕ × String) :=
  [(1, "Josh"), (2, "Sarah"), (3, "Miguel"), (4, "Priya")]

/-! ### JS `Set` insertion-order deduplication -/

/-- Helper for `uniqueList`: drop elements already seen, keep first occurrences. -/
def uniqueAux (seen : List String) : List String → List String
  | [] => []
  | x :: xs => if x ∈ seen then uniqueAux seen xs else x :: uniqueAux (x :: seen) xs

/-- Model of `[...new Set(l)]`: deduplicate keeping the first occurrence of each element. -/
def uniqueList (l : List String) : List String :=
  uniqueAux [] l

lemma mem_uniqueAux (l : List String) :
    ∀ (seen : List String) (x : String), x ∈ uniqueAux seen l ↔ x ∈ l ∧ x ∉ seen := by
  induction l with
  | nil => intro seen x; simp [uniqueAux]
  | cons y ys ih =>
    intro seen x
    rw [uniqueAux]
    split_ifs with hy
    · rw [ih]
      constructor
      · exact fun ⟨h1, h2⟩ => ⟨List.mem_cons_of_mem y h1, h2⟩
      · rintro ⟨h1, h2⟩
        rcases List.mem_cons.mp h1 with rfl | h1'
        · exact absurd hy h2
        · exact ⟨h1', h2⟩
    · rw [List.mem_cons, ih]
      constructor
      · rintro (rfl | ⟨h1, h2⟩)
        · exact ⟨List.mem_cons_self x ys, hy⟩
        · exact ⟨List.mem_cons_of_mem y h1,
            fun hx => h2 (List.mem_cons_of_mem y hx)⟩
      · rintro ⟨h1, h2⟩
        by_cases hxy : x = y
        · exact Or.inl hxy
        · rcases List.mem_cons.mp h1 with rfl | h1'
          · exact absurd rfl hxy
          · refine Or.inr ⟨h1', fun hx => ?_⟩
            rcases List.mem_cons.mp hx with rfl | hx'
            · exact hxy rfl
            · exact h2 hx'

lemma nodup_uniqueAux (l : List String) : ∀ seen : List String, (uniqueAux seen l).Nodup := by
  induction l with
  | nil => intro seen; simp [uniqueAux]
  | cons y ys ih =>
    intro seen
    rw [uniqueAux]
    split_ifs with hy
    · exact ih seen
    · refine List.nodup_cons.mpr ⟨?_, ih (y :: seen)⟩
      rw [mem_uniqueAux]
      rintro ⟨-, h2⟩
      exact h2 (List.mem_cons_self y seen)

lemma mem_uniqueList (l : List String) (x : String) : x ∈ uniqueList l ↔ x ∈ l := by
  rw [uniqueList, mem_uniqueAux]
  simp

lemma nodup_uniqueList (l : List String) : (uniqueList l).Nodup :=
  nodup_uniqueAux l []

/-! ### User similarity (`calculateUserSimilarity`) -/

/-- Model of `reviews.filter(r => r.user_id === uid)`. -/
def userReviews (uid : ℕ) (reviews : List Review) : List Review :=
  reviews.filter fun r => r.user_id == uid

/-- Model of `new Set(userReviews.map(r => r.restaurant_name))`, in insertion order. -/
def restaurantsOf (uid : ℕ) (reviews : List Review) : List String :=
  uniqueList ((userReviews uid reviews).map Review.restaurant_name)

/-- Model of `[...targetRestaurants].filter(r => neighborRestaurants.has(r))`. -/
def commonRestaurants (a b : ℕ) (reviews : List Review) : List String :=
  (restaurantsOf a reviews).filter fun rest => decide (rest ∈ restaurantsOf b reviews)

/-- A user's mean rating over all of their reviews at one restaurant. -/
def meanRating (uid : ℕ) (rest : String) (reviews : List Review) : ℚ :=
  let l := (userReviews uid reviews).filter fun r => r.restaurant_name == rest
  ((l.map Review.rating).sum) / (l.length : ℚ)

/-- The running `dotProduct` accumulated over the common restaurants. -/
def dotProduct (a b : ℕ) (reviews : List Review) : ℚ :=
  ((commonRestaurants a b reviews).map fun rest =>
    meanRating a rest reviews * meanRating b rest reviews).sum

/-- The running `targetNorm` (sum of squared target means). -/
def targetNormSq (a b : ℕ) (reviews : List Review) : ℚ :=
  ((commonRestaurants a b reviews).map fun rest =>
    meanRating a rest reviews * meanRating a rest reviews).sum

/-- The running `neighborNorm` (sum of squared neighbor means). -/
def neighborNormSq (a b : ℕ) (reviews : List Review) : ℚ :=
  ((commonRestaurants a b reviews).map fun rest =>
    meanRating b rest reviews * meanRating b rest reviews).sum

/-- Return value of `calculateUserSimilarity`. -/
structure SimResult where
  similarity : ℝ
  commonRestaurants : List String

/-- Model of `calculateUserSimilarity(targetUserId, neighborUserId, reviews)`.  The JS
truthiness guard `targetNorm && neighborNorm ? ... : 0` becomes the
conjunction of the two non-zero tests; `Math.sqrt` becomes `Real.sqrt`. -/
noncomputable def calculateUserSimilarity (targetUserId neighborUserId : ℕ)
    (reviews : List Review) : SimResult :=
  let common := commonRestaurants targetUserId neighborUserId reviews
  if common = [] then ⟨0, []⟩
  else
    let tn := targetNormSq targetUserId neighborUserId reviews
    let nn := neighborNormSq targetUserId neighborUserId reviews
    ⟨if tn ≠ 0 ∧ nn ≠ 0 then
        (dotProduct targetUserId neighborUserId reviews : ℝ) /
          (Real.sqrt (tn : ℝ) * Real.sqrt (nn : ℝ))
      else 0,
     common⟩

lemma mem_commonRestaurants (a b : ℕ) (reviews : List Review) (x : String) :
    x ∈ commonRestaurants a b reviews ↔
      x ∈ restaurantsOf a reviews ∧ x ∈ restaurantsOf b reviews := by
  unfold commonRestaurants
  rw [List.mem_filter]
  simp

lemma nodup_commonRestaurants (a b : ℕ) (reviews : List Review) :
    (commonRestaurants a b reviews).Nodup :=
  (nodup_uniqueList _).filter _

lemma commonRestaurants_perm (a b : ℕ) (reviews : List Review) :
    List.Perm (commonRestaurants a b reviews) (commonRestaurants b a reviews) := by
  rw [List.perm_ext_iff_of_nodup (nodup_commonRestaurants a b reviews)
    (nodup_commonRestaurants b a reviews)]
  intro x
  rw [mem_commonRestaurants, mem_commonRestaurants, and_comm]

lemma sum_map_common_swap (a b : ℕ) (reviews : List Review) (f : String → ℚ) :
    ((commonRestaurants a b reviews).map f).sum =
      ((commonRestaurants b a reviews).map f).sum :=
  ((commonRestaurants_perm a b reviews).map f).sum_eq

lemma dotProduct_symm (a b : ℕ) (reviews : List Review) :
    dotProduct b a reviews = dotProduct a b reviews := by
  unfold dotProduct
  rw [sum_map_common_swap b a reviews]
  exact congrArg List.sum (List.map_congr_left fun rest _ => mul_comm _ _)

lemma targetNormSq_swap (a b : ℕ) (reviews : List Review) :
    targetNormSq b a reviews = neighborNormSq a b reviews := by
  unfold targetNormSq neighborNormSq
  exact sum_map_common_swap b a reviews _

lemma neighborNormSq_swap (a b : ℕ) (reviews : List Review) :
    neighborNormSq b a reviews = targetNormSq a b reviews := by
  unfold targetNormSq neighborNormSq
  exact sum_map_common_swap b a reviews _

/-- C7: user similarity is symmetric in its two user arguments. -/
theorem calculateUserSimilarity_symm (a b : ℕ) (reviews : List Review) :
    (calculateUserSimilarity a b reviews).similarity =
      (calculateUserSimilarity b a reviews).similarity := by
  have hperm := commonRestaurants_perm a b reviews
  by_cases h : commonRestaurants a b reviews = []
  · have h2 : commonRestaurants b a reviews = [] :=
      List.Perm.eq_nil (by rw [← h]; exact hperm.symm)
    simp only [calculateUserSimilarity, if_pos h, if_pos h2]
  · have h2 : commonRestaurants b a reviews ≠ [] := fun hh =>
      h (List.Perm.eq_nil (by rw [← hh]; exact hperm))
    simp only [calculateUserSimilarity, if_neg h, if_neg h2]
    rw [dotProduct_symm a b reviews, targetNormSq_swap a b reviews,
      neighborNormSq_swap a b reviews]
    by_cases h1 : targetNormSq a b reviews ≠ 0 ∧ neighborNormSq a b reviews ≠ 0
    · rw [if_pos h1, if_pos (And.intro h1.2 h1.1), mul_comm]
    · rw [if_neg h1, if_neg (fun hc => h1 (And.intro hc.2 hc.1))]

/-- C8: with no common restaurant the similarity is exactly 0 with an empty
common-restaurant set, and a zero norm on either side also yields exactly 0
(no undefined division is ever performed). -/
theorem calculateUserSimilarity_degenerate (a b : ℕ) (reviews : List Review) :
    (commonRestaurants a b reviews = [] →
      (calculateUserSimilarity a b reviews).similarity = 0 ∧
      (calculateUserSimilarity a b reviews).commonRestaurants = []) ∧
    ((targetNormSq a b reviews = 0 ∨ neighborNormSq a b reviews = 0) →
      (calculateUserSimilarity a b reviews).similarity = 0) := by
  constructor
  · intro h
    simp [calculateUserSimilarity, if_pos h]
  · intro h
    by_cases hc : commonRestaurants a b reviews = []
    · simp only [calculateUserSimilarity, if_pos hc]
    · simp only [calculateUserSimilarity, if_neg hc]
      rw [if_neg]
      rcases h with h | h
      · exact fun hand => hand.1 h
      · exact fun hand => hand.2 h

/-- Fixture with no shared restaurant between users 1 and 2. -/
def disjointReviews : List Review :=
  [⟨1, "Dishoom", "Chicken Ruby", 5, "Indian"⟩,
   ⟨2, "Sabor", "Piri Piri Chicken", 4, "Portuguese"⟩]

/-- Fixture where user 1's only rating at the shared restaurant is 0,
forcing a zero target norm. -/
def zeroNormReviews : List Review :=
  [⟨1, "Dishoom", "Chicken Ruby", 0, "Indian"⟩,
   ⟨2, "Dishoom", "Pau Bhaji", 4, "Indian"⟩]

theorem calculateUserSimilarity_degenerate_witness :
    (calculateUserSimilarity 1 2 disjointReviews).similarity = 0 ∧
    (calculateUserSimilarity 1 2 disjointReviews).commonRestaurants = [] ∧
    (calculateUserSimilarity 1 2 zeroNormReviews).similarity = 0 :=
  ⟨((calculateUserSimilarity_degenerate 1 2 disjointReviews).1 (by decide)).1,
   ((calculateUserSimilarity_degenerate 1 2 disjointReviews).1 (by decide)).2,
   (calculateUserSimilarity_degenerate 1 2 zeroNormReviews).2 (Or.inl (by
      norm_num [targetNormSq, commonRestaurants, restaurantsOf, userReviews, uniqueList,
        uniqueAux, meanRating, zeroNormReviews, List.filter, List.map]))⟩

/-! ### The TypeScript recommendation engine (`getTypeScriptRecommendations`) -/

/-- The candidate/visited key `` `${r.dish_name}@${r.restaurant_name}` ``. -/
def dishKey (r : Review) : String :=
  r.dish_name ++ "@" ++ r.restaurant_name

/-- Display-name lookup with fallback: `USER_PROFILES[id]?.name` or a label built
from the id. -/
def lookupProfileName (uid : ℕ) : String :=
  match USER_PROFILES.find? (fun p => p.1 == uid) with
  | some p => p.2
  | none => "User " ++ toString uid

/-- One entry of `otherUserIds`: the engine only ever considers ids 2, 3, 4. -/
def otherUserIds (targetUserId : ℕ) : List ℕ :=
  [2, 3, 4].filter fun id => id ≠ targetUserId

/-- One element of the `similarities` array. -/
structure SimUser where
  userId : ℕ
  similarity : ℝ
  commonRestaurants : List String

/-- Order meaning \"a sorts no later than b\" for the similarity comparator
`(a, b) => b.similarity - a.similarity` (descending similarity). -/
def simGE (a b : SimUser) : Prop :=
  b.similarity ≤ a.similarity

instance : IsTotal SimUser simGE :=
  ⟨fun a b => le_total b.similarity a.similarity⟩

instance : IsTrans SimUser simGE :=
  ⟨fun _ _ _ h1 h2 => le_trans h2 h1⟩

noncomputable instance : DecidableRel simGE :=
  fun _ _ => Classical.propDecidable _

/-- The filter `s.similarity > 0 && s.commonRestaurants.length > 0`. -/
noncomputable def keepSimUser (s : SimUser) : Bool :=
  @decide (0 < s.similarity ∧ s.commonRestaurants ≠ []) (Classical.propDecidable _)

/-- The `similarities` list: similarity against each other id from
`otherUserIds`, filtered to positive similarity with overlap, sorted by
descending similarity, truncated to the top 3. -/
noncomputable def similarUsers (targetUserId : ℕ) (reviews : List Review) : List SimUser :=
  let sims := (otherUserIds targetUserId).map fun uid =>
    { userId := uid
      similarity := (calculateUserSimilarity targetUserId uid reviews).similarity
      commonRestaurants := (calculateUserSimilarity targetUserId uid reviews).commonRestaurants }
  (List.insertionSort simGE (sims.filter keepSimUser)).take 3

/-- A `common_items` entry on a supporter. -/
inductive CommonItem where
  | sameDishSameRestaurant (dish restaurant : String) (user_rating neighbor_rating : ℚ)
  | differentDishSameRestaurant (user_dish neighbor_dish restaurant : String)
deriving DecidableEq

/-- The nested cross-join that collects `commonItems` for one neighbor. -/
def commonItemsFor (targetReviews neighborReviews : List Review) : List CommonItem :=
  (targetReviews.map fun t =>
    neighborReviews.filterMap fun n =>
      if t.dish_name = n.dish_name ∧ t.restaurant_name = n.restaurant_name then
        some (CommonItem.sameDishSameRestaurant t.dish_name t.restaurant_name t.rating n.rating)
      else if t.restaurant_name = n.restaurant_name then
        some (CommonItem.differentDishSameRestaurant t.dish_name n.dish_name t.restaurant_name)
      else none).flatten

/-- A supporter attached to one candidate dish. -/
structure Supporter where
  neighbor_id : ℕ
  neighbor_name : String
  similarity : ℝ
  rating : ℚ
  common_items : List CommonItem

/-- One value of the `candidates` map. -/
structure Candidate where
  dish_name : String
  restaurant : String
  weightedSum : ℝ
  weightSum : ℝ
  supporters : List Supporter
  isNewRestaurant : Bool

/-- The `candidates` map, as an insertion-ordered association list (JS `Map`
preserves insertion order and `Array.from(map.values())` iterates it). -/
abbrev CandMap := List (String × Candidate)

/-- Model of `candidates.get(key)`. -/
def lookupCand : CandMap → String → Option Candidate
  | [], _ => none
  | (k, c) :: m, key => if k = key then some c else lookupCand m key

/-- Model of `candidates.set(key, c)` for a key already present (update in place). -/
def setCand : CandMap → String → Candidate → CandMap
  | [], _, _ => []
  | (k, c) :: m, key, c' => if k = key then (k, c') :: m else (k, c) :: setCand m key c'

/-- The body of the inner `for (review of userReviews)` loop: skip dishes the
target already tried, skip ratings below 4, then create or merge the
candidate entry and push a supporter onto it. -/
noncomputable def processReview (targetReviews : List Review)
    (targetDishes targetRestaurants : List String) (reviews : List Review)
    (su : SimUser) (m : CandMap) (review : Review) : CandMap :=
  let key := dishKey review
  if key ∈ targetDishes then m
  else if review.rating < 4 then m
  else
    let supporter : Supporter :=
      { neighbor_id := su.userId
        neighbor_name := lookupProfileName su.userId
        similarity := su.similarity
        rating := review.rating
        common_items := commonItemsFor targetReviews (userReviews su.userId reviews) }
    match lookupCand m key with
    | none =>
      m ++ [(key,
        { dish_name := review.dish_name
          restaurant := review.restaurant_name
          weightedSum := (review.rating : ℝ) * su.similarity
          weightSum := su.similarity
          supporters := [supporter]
          isNewRestaurant := !(decide (review.restaurant_name ∈ targetRestaurants)) })]
    | some c =>
      setCand m key
        { c with
          weightedSum := c.weightedSum + (review.rating : ℝ) * su.similarity
          weightSum := c.weightSum + su.similarity
          supporters := c.supporters ++ [supporter] }

/-- The double loop over retained neighbors and their reviews. -/
noncomputable def buildCandidates (targetReviews : List Review)
    (targetDishes targetRestaurants : List String) (reviews : List Review)
    (sims : List SimUser) : CandMap :=
  sims.foldl
    (fun m su =>
      (userReviews su.userId reviews).foldl
        (processReview targetReviews targetDishes targetRestaurants reviews su) m)
    []

/-- A returned dish recommendation. -/
structure DishRecommendation where
  dish_name : String
  restaurant : String
  predicted_rating : ℝ
  supporters : List Supporter
  is_new_restaurant : Bool

/-- Order meaning \"a sorts no later than b\" for the final comparator: new restaurants come
first, then descending predicted rating. -/
def recLE (a b : DishRecommendation) : Prop :=
  (a.is_new_restaurant = true ∧ b.is_new_restaurant = false) ∨
  (a.is_new_restaurant = b.is_new_restaurant ∧ b.predicted_rating ≤ a.predicted_rating)

noncomputable instance : DecidableRel recLE :=
  fun _ _ => Classical.propDecidable _

/-- Model of `getTypeScriptRecommendations(targetUserId, topN)` over the hardcoded
`REVIEW_DATA` fixture. -/
noncomputable def getTypeScriptRecommendations (targetUserId : ℕ) (topN : ℕ) :
    List DishRecommendation :=
  let targetReviews := userReviews targetUserId REVIEW_DATA
  let targetRestaurants := uniqueList (targetReviews.map Review.restaurant_name)
  let targetDishes := targetReviews.map dishKey
  let sims := similarUsers targetUserId REVIEW_DATA
  let cands := buildCandidates targetReviews targetDishes targetRestaurants REVIEW_DATA sims
  let recommendations := cands.map fun kc =>
    { dish_name := kc.2.dish_name
      restaurant := kc.2.restaurant
      predicted_rating := kc.2.weightedSum / kc.2.weightSum
      supporters := kc.2.supporters
      is_new_restaurant := kc.2.isNewRestaurant : DishRecommendation }
  (List.insertionSort recLE recommendations).take topN

/-! ### Engine invariants -/

/-- Total similarity weight carried by a supporter list (the `weightSum`). -/
noncomputable def supSum (l : List Supporter) : ℝ :=
  (l.map Supporter.similarity).sum

/-- Similarity-weighted rating mass of a supporter list (the `weightedSum`). -/
noncomputable def supWeighted (l : List Supporter) : ℝ :=
  (l.map fun s => (s.rating : ℝ) * s.similarity).sum

lemma supSum_append (l1 l2 : List Supporter) : supSum (l1 ++ l2) = supSum l1 + supSum l2 := by
  unfold supSum
  rw [List.map_append, List.sum_append]

lemma supWeighted_append (l1 l2 : List Supporter) :
    supWeighted (l1 ++ l2) = supWeighted l1 + supWeighted l2 := by
  unfold supWeighted
  rw [List.map_append, List.sum_append]

lemma supSum_single (s : Supporter) : supSum [s] = s.similarity := by
  simp [supSum]

lemma supWeighted_single (s : Supporter) : supWeighted [s] = (s.rating : ℝ) * s.similarity := by
  simp [supWeighted]

lemma mem_userReviews (uid : ℕ) (reviews : List Review) (r : Review) :
    r ∈ userReviews uid reviews ↔ r ∈ reviews ∧ r.user_id = uid := by
  unfold userReviews
  rw [List.mem_filter]
  simp

lemma lookupCand_mem (m : CandMap) (key : String) (c : Candidate) :
    lookupCand m key = some c → (key, c) ∈ m := by
  induction m with
  | nil => intro h; exact absurd h (by simp [lookupCand])
  | cons kc m ih =>
    obtain ⟨k, c0⟩ := kc
    intro h
    rw [lookupCand] at h
    by_cases hk : k = key
    · rw [if_pos hk] at h
      injection h with h
      rw [← hk, ← h]
      exact List.mem_cons_self _ _
    · rw [if_neg hk] at h
      exact List.mem_cons_of_mem _ (ih h)

lemma setCand_subset (m : CandMap) (key : String) (c' : Candidate) :
    ∀ kc ∈ setCand m key c', kc ∈ m ∨ kc = (key, c') := by
  induction m with
  | nil => intro kc hkc; exact absurd hkc (by simp [setCand])
  | cons kc0 m ih =>
    obtain ⟨k, c0⟩ := kc0
    intro kc hkc
    rw [setCand] at hkc
    by_cases hk : k = key
    · rw [if_pos hk] at hkc
      rcases List.mem_cons.mp hkc with rfl | hm
      · exact Or.inr (by rw [hk])
      · exact Or.inl (List.mem_cons_of_mem _ hm)
    · rw [if_neg hk] at hkc
      rcases List.mem_cons.mp hkc with rfl | hm
      · exact Or.inl (List.mem_cons_self _ _)
      · rcases ih kc hm with h | h
        · exact Or.inl (List.mem_cons_of_mem _ h)
        · exact Or.inr h

/-- Everything that stays true of every entry of the `candidates` map. -/
structure EntryInv (reviews : List Review) (targetDishes : List String)
    (simsIds : List ℕ) (kc : String × Candidate) : Prop where
  key_eq : kc.1 = kc.2.dish_name ++ "@" ++ kc.2.restaurant
  key_not_target : kc.1 ∉ targetDishes
  wsum_eq : kc.2.weightSum = supSum kc.2.supporters
  wtd_eq : kc.2.weightedSum = supWeighted kc.2.supporters
  sup_ne : kc.2.supporters ≠ []
  sup_ok : ∀ s ∈ kc.2.supporters, 0 < s.similarity ∧ s.neighbor_id ∈ simsIds ∧
    ∃ r ∈ reviews, r.user_id = s.neighbor_id ∧ dishKey r = kc.1 ∧
      r.rating = s.rating ∧ 4 ≤ r.rating
  cand_from : ∃ r0 ∈ reviews, r0.dish_name = kc.2.dish_name ∧
    r0.restaurant_name = kc.2.restaurant

lemma processReview_inv (targetReviews : List Review) (targetDishes targetRestaurants : List String)
    (reviews : List Review) (simsIds : List ℕ) (su : SimUser) (review : Review)
    (hsu : 0 < su.similarity) (hid : su.userId ∈ simsIds)
    (hrev : review ∈ reviews) (huid : review.user_id = su.userId)
    (m : CandMap) (hm : ∀ kc ∈ m, EntryInv reviews targetDishes simsIds kc) :
    ∀ kc ∈ processReview targetReviews targetDishes targetRestaurants reviews su m review,
      EntryInv reviews targetDishes simsIds kc := by
  intro kc hkc
  simp only [processReview] at hkc
  by_cases h1 : dishKey review ∈ targetDishes
  · rw [if_pos h1] at hkc; exact hm kc hkc
  · rw [if_neg h1] at hkc
    by_cases h2 : review.rating < 4
    · rw [if_pos h2] at hkc; exact hm kc hkc
    · rw [if_neg h2] at hkc
      have h4 : 4 ≤ review.rating := not_lt.mp h2
      rcases hcl : lookupCand m (dishKey review) with _ | c
      · rw [hcl] at hkc
        rcases List.mem_append.mp hkc with hold | hnew
        · exact hm kc hold
        · rw [List.mem_singleton.mp hnew]
          refine ⟨rfl, h1, ?_, ?_, by simp, ?_, ⟨review, hrev, rfl, rfl⟩⟩
          · rw [supSum_single]
          · rw [supWeighted_single]
          · intro s hs
            rw [List.mem_singleton.mp hs]
            exact ⟨hsu, huid ▸ hid, review, hrev, huid, rfl, rfl, h4⟩
      · rw [hcl] at hkc
        rcases setCand_subset m (dishKey review) _ kc hkc with hold | heq
        · exact hm kc hold
        · have hc := hm (dishKey review, c) (lookupCand_mem m (dishKey review) c hcl)
          rw [heq]
          refine ⟨hc.key_eq, hc.key_not_target, ?_, ?_, by simp, ?_, hc.cand_from⟩
          · show c.weightSum + su.similarity = supSum (c.supporters ++ [_])
            rw [supSum_append, supSum_single, hc.wsum_eq]
          · show c.weightedSum + (review.rating : ℝ) * su.similarity =
              supWeighted (c.supporters ++ [_])
            rw [supWeighted_append, supWeighted_single, hc.wtd_eq]
          · intro s hs
            rcases List.mem_append.mp hs with hsold | hsnew
            · exact hc.sup_ok s hsold
            · rw [List.mem_singleton.mp hsnew]
              exact ⟨hsu, huid ▸ hid, review, hrev, huid, rfl, rfl, h4⟩

lemma foldl_processReview_inv (targetReviews : List Review)
    (targetDishes targetRestaurants : List String) (reviews : List Review)
    (simsIds : List ℕ) (su : SimUser)
    (hsu : 0 < su.similarity) (hid : su.userId ∈ simsIds) (lsu : List Review)
    (hl : ∀ r ∈ lsu, r ∈ reviews ∧ r.user_id = su.userId) :
    ∀ m : CandMap, (∀ kc ∈ m, EntryInv reviews targetDishes simsIds kc) →
      ∀ kc ∈ lsu.foldl
        (processReview targetReviews targetDishes targetRestaurants reviews su) m,
        EntryInv reviews targetDishes simsIds kc := by
  induction lsu with
  | nil => intro m hm; exact hm
  | cons r rs ih =>
    intro m hm
    rw [List.foldl_cons]
    exact ih (fun r' hr' => hl r' (List.mem_cons_of_mem _ hr'))
      (processReview targetReviews targetDishes targetRestaurants reviews su m r)
      (processReview_inv targetReviews targetDishes targetRestaurants reviews simsIds su r
        hsu hid (hl r (List.mem_cons_self _ _)).1 (hl r (List.mem_cons_self _ _)).2 m hm)

lemma buildCandidates_inv (targetReviews : List Review)
    (targetDishes targetRestaurants : List String) (reviews : List Review)
    (simsIds : List ℕ) (sims : List SimUser)
    (hsims : ∀ su ∈ sims, 0 < su.similarity ∧ su.userId ∈ simsIds) :
    ∀ kc ∈ buildCandidates targetReviews targetDishes targetRestaurants reviews sims,
      EntryInv reviews targetDishes simsIds kc := by
  unfold buildCandidates
  suffices h : ∀ (l : List SimUser), (∀ su ∈ l, 0 < su.similarity ∧ su.userId ∈ simsIds) →
      ∀ m : CandMap, (∀ kc ∈ m, EntryInv reviews targetDishes simsIds kc) →
      ∀ kc ∈ l.foldl
        (fun m su => (userReviews su.userId reviews).foldl
          (processReview targetReviews targetDishes targetRestaurants reviews su) m) m,
        EntryInv reviews targetDishes simsIds kc by
    exact h sims hsims [] (by simp)
  intro l
  induction l with
  | nil => intro _ m hm; exact hm
  | cons su rest ih =>
    intro hall m hm
    rw [List.foldl_cons]
    refine ih (fun su' hsu' => hall su' (List.mem_cons_of_mem _ hsu')) _ ?_
    refine foldl_processReview_inv targetReviews targetDishes targetRestaurants reviews
      simsIds su (hall su (List.mem_cons_self _ _)).1 (hall su (List.mem_cons_self _ _)).2
      (userReviews su.userId reviews) ?_ m hm
    intro r hr
    exact (mem_userReviews su.userId reviews r).mp hr

lemma mem_similarUsers (targetUserId : ℕ) (reviews : List Review) :
    ∀ su ∈ similarUsers targetUserId reviews,
      0 < su.similarity ∧ su.commonRestaurants ≠ [] ∧ su.userId ∈ otherUserIds targetUserId ∧
      su.similarity = (calculateUserSimilarity targetUserId su.userId reviews).similarity ∧
      su.commonRestaurants =
        (calculateUserSimilarity targetUserId su.userId reviews).commonRestaurants := by
  intro su hsu
  simp only [similarUsers] at hsu
  have h1 := List.mem_of_mem_take hsu
  rw [List.mem_insertionSort] at h1
  rw [List.mem_filter] at h1
  obtain ⟨hmem, hkeep⟩ := h1
  have hkeep' : 0 < su.similarity ∧ su.commonRestaurants ≠ [] := by
    have h := hkeep
    rw [keepSimUser] at h
    exact @of_decide_eq_true _ (Classical.propDecidable _) h
  obtain ⟨uid, huid, hequ⟩ := List.mem_map.mp hmem
  refine ⟨hkeep'.1, hkeep'.2, ?_, ?_, ?_⟩
  · rw [← hequ]; exact huid
  · rw [← hequ]
  · rw [← hequ]

lemma mem_recommendations (targetUserId topN : ℕ) (rec : DishRecommendation)
    (h : rec ∈ getTypeScriptRecommendations targetUserId topN) :
    ∃ kc ∈ buildCandidates (userReviews targetUserId REVIEW_DATA)
        ((userReviews targetUserId REVIEW_DATA).map dishKey)
        (uniqueList ((userReviews targetUserId REVIEW_DATA).map Review.restaurant_name))
        REVIEW_DATA (similarUsers targetUserId REVIEW_DATA),
      rec = ⟨kc.2.dish_name, kc.2.restaurant, kc.2.weightedSum / kc.2.weightSum,
        kc.2.supporters, kc.2.isNewRestaurant⟩ := by
  simp only [getTypeScriptRecommendations] at h
  have h1 := List.mem_of_mem_take h
  rw [List.mem_insertionSort] at h1
  obtain ⟨kc, hkc, hequ⟩ := List.mem_map.mp h1
  exact ⟨kc, hkc, hequ.symm⟩

/-- C4: no returned recommendation carries a (dish, restaurant) pair the
target user has already rated. -/
theorem recommendations_skip_rated_pairs (targetUserId topN : ℕ) :
    List.Forall
      (fun rec => ∀ r ∈ REVIEW_DATA, r.user_id = targetUserId →
        ¬(rec.dish_name = r.dish_name ∧ rec.restaurant = r.restaurant_name))
      (getTypeScriptRecommendations targetUserId topN) := by
  rw [List.forall_iff_forall_mem]
  intro rec hrec r hr huser hpair
  obtain ⟨kc, hkc, hrec_eq⟩ := mem_recommendations targetUserId topN rec hrec
  have hinv := buildCandidates_inv _ _ _ _
    ((similarUsers targetUserId REVIEW_DATA).map SimUser.userId) _
    (fun su hsu => ⟨(mem_similarUsers targetUserId REVIEW_DATA su hsu).1,
      List.mem_map_of_mem SimUser.userId hsu⟩) kc hkc
  apply hinv.key_not_target
  rw [hinv.key_eq]
  have hd : kc.2.dish_name = r.dish_name := by rw [hrec_eq] at hpair; exact hpair.1
  have hre : kc.2.restaurant = r.restaurant_name := by rw [hrec_eq] at hpair; exact hpair.2
  have : dishKey r = kc.2.dish_name ++ "@" ++ kc.2.restaurant := by
    rw [dishKey, hd, hre]
  rw [← this]
  exact List.mem_map_of_mem dishKey ((mem_userReviews targetUserId REVIEW_DATA r).mpr ⟨hr, huser⟩)

lemma supSum_cons (s : Supporter) (l : List Supporter) :
    supSum (s :: l) = s.similarity + supSum l := by
  simp [supSum]

lemma supWeighted_cons (s : Supporter) (l : List Supporter) :
    supWeighted (s :: l) = (s.rating : ℝ) * s.similarity + supWeighted l := by
  simp [supWeighted]

lemma supSum_pos (l : List Supporter) (hne : l ≠ [])
    (hpos : ∀ s ∈ l, 0 < s.similarity) : 0 < supSum l := by
  refine List.sum_pos _ ?_ ?_
  · intro x hx
    obtain ⟨s, hs, rfl⟩ := List.mem_map.mp hx
    exact hpos s hs
  · simpa using hne

lemma supWeighted_bounds (l : List Supporter) (lo hi : ℝ)
    (h : ∀ s ∈ l, 0 ≤ s.similarity ∧ lo ≤ (s.rating : ℝ) ∧ (s.rating : ℝ) ≤ hi) :
    lo * supSum l ≤ supWeighted l ∧ supWeighted l ≤ hi * supSum l := by
  induction l with
  | nil => simp [supSum, supWeighted]
  | cons s rest ih =>
    obtain ⟨hpos, hlo, hhi⟩ := h s (List.mem_cons_self _ _)
    have ihr := ih fun s' hs' => h s' (List.mem_cons_of_mem _ hs')
    rw [supSum_cons, supWeighted_cons]
    constructor
    · have h1 : lo * s.similarity ≤ (s.rating : ℝ) * s.similarity :=
        mul_le_mul_of_nonneg_right hlo hpos
      calc lo * (s.similarity + supSum rest) = lo * s.similarity + lo * supSum rest := by ring
        _ ≤ (s.rating : ℝ) * s.similarity + supWeighted rest := add_le_add h1 ihr.1
    · have h1 : (s.rating : ℝ) * s.similarity ≤ hi * s.similarity :=
        mul_le_mul_of_nonneg_right hhi hpos
      calc (s.rating : ℝ) * s.similarity + supWeighted rest
          ≤ hi * s.similarity + hi * supSum rest := add_le_add h1 ihr.2
        _ = hi * (s.similarity + supSum rest) := by ring

/-- Every fixture rating sits in the 1–5 star range (they are all 4 or 5). -/
lemma review_ratings_range : ∀ r ∈ REVIEW_DATA, 1 ≤ r.rating ∧ r.rating ≤ 5 := by
  decide

/-- C5: every returned recommendation's predicted rating is the
similarity-weighted average over its supporters, the weight sum is strictly
positive, and the prediction is bounded by any bounds on the contributing
ratings — in particular it lies in [1, 5]. -/
theorem predicted_rating_weighted_average_bounds (targetUserId topN : ℕ) :
    List.Forall (fun rec =>
      rec.supporters ≠ [] ∧
      0 < supSum rec.supporters ∧
      rec.predicted_rating = supWeighted rec.supporters / supSum rec.supporters ∧
      (∀ lo hi : ℝ, (∀ s ∈ rec.supporters, lo ≤ (s.rating : ℝ) ∧ (s.rating : ℝ) ≤ hi) →
        lo ≤ rec.predicted_rating ∧ rec.predicted_rating ≤ hi) ∧
      1 ≤ rec.predicted_rating ∧ rec.predicted_rating ≤ 5)
      (getTypeScriptRecommendations targetUserId topN) := by
  rw [List.forall_iff_forall_mem]
  intro rec hrec
  obtain ⟨kc, hkc, hrec_eq⟩ := mem_recommendations targetUserId topN rec hrec
  have hinv := buildCandidates_inv _ _ _ _
    ((similarUsers targetUserId REVIEW_DATA).map SimUser.userId) _
    (fun su hsu => ⟨(mem_similarUsers targetUserId REVIEW_DATA su hsu).1,
      List.mem_map_of_mem SimUser.userId hsu⟩) kc hkc
  have hposall : ∀ s ∈ kc.2.supporters, 0 < s.similarity := fun s hs => (hinv.sup_ok s hs).1
  have hsum_pos : 0 < supSum kc.2.supporters := supSum_pos _ hinv.sup_ne hposall
  have hsupp : rec.supporters = kc.2.supporters := by rw [hrec_eq]
  have hpred : rec.predicted_rating = supWeighted kc.2.supporters / supSum kc.2.supporters := by
    rw [hrec_eq]
    show kc.2.weightedSum / kc.2.weightSum = _
    rw [hinv.wsum_eq, hinv.wtd_eq]
  have hbounds : ∀ lo hi : ℝ,
      (∀ s ∈ rec.supporters, lo ≤ (s.rating : ℝ) ∧ (s.rating : ℝ) ≤ hi) →
      lo ≤ rec.predicted_rating ∧ rec.predicted_rating ≤ hi := by
    intro lo hi hlh
    rw [hsupp] at hlh
    have hb := supWeighted_bounds kc.2.supporters lo hi
      (fun s hs => ⟨le_of_lt (hposall s hs), (hlh s hs).1, (hlh s hs).2⟩)
    rw [hpred]
    exact ⟨(le_div_iff₀ hsum_pos).mpr hb.1, (div_le_iff₀ hsum_pos).mpr hb.2⟩
  refine ⟨by rw [hsupp]; exact hinv.sup_ne, by rw [hsupp]; exact hsum_pos,
    by rw [hpred, hsupp], hbounds, ?_⟩
  refine hbounds 1 5 ?_
  intro s hs
  rw [hsupp] at hs
  obtain ⟨-, -, r, hr, -, -, hrat, -⟩ := hinv.sup_ok s hs
  have := review_ratings_range r hr
  rw [hrat] at this
  exact ⟨by exact_mod_cast this.1, by exact_mod_cast this.2⟩

/-! ### Neighbor selection (C6) -/

/-- C6 amended: the candidate pool is `[2, 3, 4]` minus the target (never user
1); of those, exactly the neighbors with positive similarity and a non-empty
common-restaurant overlap are retained — the take-3 cutoff never drops any,
since at most 3 candidates exist — and they are sorted by descending
similarity. -/
theorem similarUsers_retains_qualifying_candidates (targetUserId : ℕ) :
    (similarUsers targetUserId REVIEW_DATA).length ≤ 3 ∧
    List.Sorted simGE (similarUsers targetUserId REVIEW_DATA) ∧
    (∀ su ∈ similarUsers targetUserId REVIEW_DATA,
      0 < su.similarity ∧ su.commonRestaurants ≠ [] ∧
      su.userId ∈ [2, 3, 4] ∧ su.userId ≠ targetUserId ∧
      su.similarity = (calculateUserSimilarity targetUserId su.userId REVIEW_DATA).similarity) ∧
    (∀ uid ∈ otherUserIds targetUserId,
      0 < (calculateUserSimilarity targetUserId uid REVIEW_DATA).similarity →
      (calculateUserSimilarity targetUserId uid REVIEW_DATA).commonRestaurants ≠ [] →
      uid ∈ (similarUsers targetUserId REVIEW_DATA).map SimUser.userId) := by
  refine ⟨?_, ?_, ?_, ?_⟩
  · simp only [similarUsers]
    exact List.length_take_le 3 _
  · simp only [similarUsers]
    exact List.Pairwise.sublist (List.take_sublist 3 _)
      (List.sorted_insertionSort simGE _)
  · intro su hsu
    have h := mem_similarUsers targetUserId REVIEW_DATA su hsu
    have hother := h.2.2.1
    simp only [otherUserIds, List.mem_filter, decide_eq_true_eq] at hother
    exact ⟨h.1, h.2.1, hother.1, hother.2, h.2.2.2.1⟩
  · intro uid huid hpos hne
    simp only [similarUsers]
    set mk := fun uid' => SimUser.mk uid'
      (calculateUserSimilarity targetUserId uid' REVIEW_DATA).similarity
      (calculateUserSimilarity targetUserId uid' REVIEW_DATA).commonRestaurants with hmk
    have hkeep : keepSimUser (mk uid) = true := by
      rw [keepSimUser]
      exact @decide_eq_true _ (Classical.propDecidable _) ⟨hpos, hne⟩
    have hmem0 : mk uid ∈ (otherUserIds targetUserId).map mk :=
      List.mem_map_of_mem mk huid
    have hmemf : mk uid ∈ ((otherUserIds targetUserId).map mk).filter keepSimUser :=
      List.mem_filter.mpr ⟨hmem0, hkeep⟩
    have hlen : (List.insertionSort simGE
        (((otherUserIds targetUserId).map mk).filter keepSimUser)).length ≤ 3 := by
      rw [(List.perm_insertionSort simGE _).length_eq]
      calc (((otherUserIds targetUserId).map mk).filter keepSimUser).length
          ≤ ((otherUserIds targetUserId).map mk).length := List.length_filter_le _ _
        _ = (otherUserIds targetUserId).length := List.length_map _ _
        _ ≤ 3 := by
            simp only [otherUserIds]
            exact le_trans (List.length_filter_le _ _) (by norm_num)
    rw [List.take_of_length_le hlen]
    refine List.mem_map.mpr ⟨mk uid, ?_, rfl⟩
    rw [List.mem_insertionSort]
    exact hmemf

/-- C6 counterexample: user 1 sits in the `USER_PROFILES` directory and has
strictly positive similarity with target user 2, yet the engine's candidate
pool for target 2 is `[3, 4]` — user 1 is never scored and never retained, so
the engine does not compare against every other known user id. -/
theorem similarUsers_never_considers_user_one :
    otherUserIds 2 = [3, 4] ∧
    (1, "Josh") ∈ USER_PROFILES ∧ (1 : ℕ) ≠ 2 ∧
    0 < (calculateUserSimilarity 2 1 REVIEW_DATA).similarity ∧
    (1 : ℕ) ∉ (similarUsers 2 REVIEW_DATA).map SimUser.userId := by
  have hc : commonRestaurants 2 1 REVIEW_DATA = ["Dishoom", "Hoppers", "Bao"] := by decide
  have hcne : commonRestaurants 2 1 REVIEW_DATA ≠ [] := by rw [hc]; decide
  have m2d : meanRating 2 "Dishoom" REVIEW_DATA = 9 / 2 := by
    have h : (userReviews 2 REVIEW_DATA).filter (fun r => r.restaurant_name == "Dishoom") =
        [⟨2, "Dishoom", "Chicken Ruby", 5, "Indian"⟩,
         ⟨2, "Dishoom", "Pau Bhaji", 4, "Indian"⟩] := by decide
    rw [meanRating, h]
    norm_num [List.map, List.sum_cons]
  have m2h : meanRating 2 "Hoppers" REVIEW_DATA = 5 := by
    have h : (userReviews 2 REVIEW_DATA).filter (fun r => r.restaurant_name == "Hoppers") =
        [⟨2, "Hoppers", "Bone Marrow Varuval", 5, "Sri Lankan"⟩] := by decide
    rw [meanRating, h]
    norm_num [List.map, List.sum_cons]
  have m2b : meanRating 2 "Bao" REVIEW_DATA = 4 := by
    have h : (userReviews 2 REVIEW_DATA).filter (fun r => r.restaurant_name == "Bao") =
        [⟨2, "Bao", "Classic Bao", 4, "Taiwanese"⟩] := by decide
    rw [meanRating, h]
    norm_num [List.map, List.sum_cons]
  have m1d : meanRating 1 "Dishoom" REVIEW_DATA = 5 := by
    have h : (userReviews 1 REVIEW_DATA).filter (fun r => r.restaurant_name == "Dishoom") =
        [⟨1, "Dishoom", "Chicken Ruby", 5, "Indian"⟩,
         ⟨1, "Dishoom", "House Black Daal", 5, "Indian"⟩] := by decide
    rw [meanRating, h]
    norm_num [List.map, List.sum_cons]
  have m1h : meanRating 1 "Hoppers" REVIEW_DATA = 5 := by
    have h : (userReviews 1 REVIEW_DATA).filter (fun r => r.restaurant_name == "Hoppers") =
        [⟨1, "Hoppers", "Bone Marrow Varuval", 5, "Sri Lankan"⟩] := by decide
    rw [meanRating, h]
    norm_num [List.map, List.sum_cons]
  have m1b : meanRating 1 "Bao" REVIEW_DATA = 4 := by
    have h : (userReviews 1 REVIEW_DATA).filter (fun r => r.restaurant_name == "Bao") =
        [⟨1, "Bao", "Classic Bao", 4, "Taiwanese"⟩] := by decide
    rw [meanRating, h]
    norm_num [List.map, List.sum_cons]
  have hdot : dotProduct 2 1 REVIEW_DATA = 127 / 2 := by
    rw [dotProduct, hc]
    simp only [List.map_cons, List.map_nil, List.sum_cons, List.sum_nil,
      m2d, m2h, m2b, m1d, m1h, m1b]
    norm_num
  have htn : targetNormSq 2 1 REVIEW_DATA = 245 / 4 := by
    rw [targetNormSq, hc]
    simp only [List.map_cons, List.map_nil, List.sum_cons, List.sum_nil, m2d, m2h, m2b]
    norm_num
  have hnn : neighborNormSq 2 1 REVIEW_DATA = 66 := by
    rw [neighborNormSq, hc]
    simp only [List.map_cons, List.map_nil, List.sum_cons, List.sum_nil, m1d, m1h, m1b]
    norm_num
  refine ⟨by decide, by decide, by decide, ?_, ?_⟩
  · have hstep : (calculateUserSimilarity 2 1 REVIEW_DATA).similarity =
        if targetNormSq 2 1 REVIEW_DATA ≠ 0 ∧ neighborNormSq 2 1 REVIEW_DATA ≠ 0 then
          (dotProduct 2 1 REVIEW_DATA : ℝ) /
            (Real.sqrt (targetNormSq 2 1 REVIEW_DATA : ℝ) *
              Real.sqrt (neighborNormSq 2 1 REVIEW_DATA : ℝ))
        else 0 := by
      simp only [calculateUserSimilarity, if_neg hcne]
    rw [hstep, if_pos ⟨by rw [htn]; norm_num, by rw [hnn]; norm_num⟩]
    refine div_pos ?_ (mul_pos (Real.sqrt_pos.mpr ?_) (Real.sqrt_pos.mpr ?_))
    · rw [hdot]
      norm_num
    · rw [htn]
      norm_num
    · rw [hnn]
      norm_num
  · intro hmem
    obtain ⟨su, hsu, hid⟩ := List.mem_map.mp hmem
    have hother := (mem_similarUsers 2 REVIEW_DATA su hsu).2.2.1
    rw [hid] at hother
    simp only [otherUserIds, List.mem_filter, decide_eq_true_eq] at hother
    rcases hother with ⟨h123, -⟩
    exact absurd h123 (by decide)

/-! ### Supporter tracking for C9 -/

/-- The supporters currently attached to `key` in the candidates map. -/
noncomputable def supOf (m : CandMap) (key : String) : List Supporter :=
  match lookupCand m key with
  | none => []
  | some c => c.supporters

lemma supOf_of_lookup {m : CandMap} {key : String} {c : Candidate}
    (h : lookupCand m key = some c) : supOf m key = c.supporters := by
  simp [supOf, h]

lemma supOf_of_lookup_none {m : CandMap} {key : String}
    (h : lookupCand m key = none) : supOf m key = [] := by
  simp [supOf, h]

lemma lookupCand_eq_none (m : CandMap) (key : String) :
    lookupCand m key = none ↔ key ∉ m.map Prod.fst := by
  induction m with
  | nil => simp [lookupCand]
  | cons kc m ih =>
    obtain ⟨k, c⟩ := kc
    rw [lookupCand]
    by_cases hk : k = key
    · rw [if_pos hk]
      simp [hk]
    · rw [if_neg hk, ih]
      simp [Ne.symm hk]

lemma lookupCand_append_left {m : CandMap} {key : String} {c : Candidate} (l : CandMap)
    (h : lookupCand m key = some c) : lookupCand (m ++ l) key = some c := by
  induction m with
  | nil => exact absurd h (by simp [lookupCand])
  | cons kc m ih =>
    obtain ⟨k, c0⟩ := kc
    rw [lookupCand] at h
    rw [List.cons_append, lookupCand]
    by_cases hk : k = key
    · rw [if_pos hk] at h ⊢
      exact h
    · rw [if_neg hk] at h ⊢
      exact ih h

lemma lookupCand_append_none {m : CandMap} {key : String} (l : CandMap)
    (h : lookupCand m key = none) : lookupCand (m ++ l) key = lookupCand l key := by
  induction m with
  | nil => simp
  | cons kc m ih =>
    obtain ⟨k, c0⟩ := kc
    rw [lookupCand] at h
    rw [List.cons_append, lookupCand]
    by_cases hk : k = key
    · rw [if_pos hk] at h
      exact absurd h (by simp)
    · rw [if_neg hk] at h ⊢
      exact ih h

lemma setCand_lookup_eq {m : CandMap} {key : String} {c : Candidate} (c' : Candidate)
    (h : lookupCand m key = some c) : lookupCand (setCand m key c') key = some c' := by
  induction m with
  | nil => exact absurd h (by simp [lookupCand])
  | cons kc m ih =>
    obtain ⟨k, c0⟩ := kc
    rw [lookupCand] at h
    rw [setCand]
    by_cases hk : k = key
    · rw [if_pos hk, lookupCand, if_pos hk]
    · rw [if_neg hk, lookupCand, if_neg hk]
      rw [if_neg hk] at h
      exact ih h

lemma setCand_lookup_ne {m : CandMap} {key k : String} (c' : Candidate) (hk : k ≠ key) :
    lookupCand (setCand m key c') k = lookupCand m k := by
  induction m with
  | nil => simp [setCand]
  | cons kc m ih =>
    obtain ⟨k0, c0⟩ := kc
    rw [setCand]
    by_cases hk0 : k0 = key
    · rw [if_pos hk0, lookupCand, lookupCand]
      rw [if_neg (hk0.symm ▸ fun h => hk h.symm : ¬k0 = k), if_neg (by rw [hk0]; exact fun h => hk h.symm)]
    · rw [if_neg hk0, lookupCand, lookupCand]
      by_cases hkk : k0 = k
      · rw [if_pos hkk, if_pos hkk]
      · rw [if_neg hkk, if_neg hkk]
        exact ih

lemma setCand_keys (m : CandMap) (key : String) (c' : Candidate) :
    (setCand m key c').map Prod.fst = m.map Prod.fst := by
  induction m with
  | nil => simp [setCand]
  | cons kc m ih =>
    obtain ⟨k, c0⟩ := kc
    rw [setCand]
    by_cases hk : k = key
    · rw [if_pos hk]
      simp
    · rw [if_neg hk]
      simp [ih]

lemma lookupCand_of_mem_keysNodup {m : CandMap} {k : String} {c : Candidate}
    (hnodup : (m.map Prod.fst).Nodup) (hmem : (k, c) ∈ m) : lookupCand m k = some c := by
  induction m with
  | nil => exact absurd hmem (List.not_mem_nil _)
  | cons kc m ih =>
    obtain ⟨k0, c0⟩ := kc
    rw [List.map_cons, List.nodup_cons] at hnodup
    rw [lookupCand]
    rcases List.mem_cons.mp hmem with heq | hmem'
    · injection heq with h1 h2
      rw [if_pos h1.symm, h2]
    · by_cases hk : k0 = k
      · exfalso
        have hmm : k ∈ List.map Prod.fst m := List.mem_map_of_mem Prod.fst hmem'
        rw [← hk] at hmm
        exact hnodup.1 hmm
      · rw [if_neg hk]
        exact ih hnodup.2 hmem'

lemma processReview_keysNodup (targetReviews : List Review)
    (targetDishes targetRestaurants : List String) (reviews : List Review)
    (su : SimUser) (m : CandMap) (review : Review)
    (h : (m.map Prod.fst).Nodup) :
    (((processReview targetReviews targetDishes targetRestaurants reviews su m review).map
      Prod.fst)).Nodup := by
  simp only [processReview]
  by_cases h1 : dishKey review ∈ targetDishes
  · rw [if_pos h1]; exact h
  · rw [if_neg h1]
    by_cases h2 : review.rating < 4
    · rw [if_pos h2]; exact h
    · rw [if_neg h2]
      rcases hcl : lookupCand m (dishKey review) with _ | c
      · rw [List.map_append]
        refine List.Nodup.append h (by simp) ?_
        intro k hk1 hk2
        simp only [List.map_cons, List.map_nil, List.mem_singleton] at hk2
        rw [hk2] at hk1
        exact (lookupCand_eq_none m (dishKey review)).mp hcl hk1
      · rw [setCand_keys]
        exact h

lemma foldl_processReview_keysNodup (targetReviews : List Review)
    (targetDishes targetRestaurants : List String) (reviews : List Review)
    (su : SimUser) (lsu : List Review) :
    ∀ m : CandMap, (m.map Prod.fst).Nodup →
      (((lsu.foldl (processReview targetReviews targetDishes targetRestaurants reviews su) m).map
        Prod.fst)).Nodup := by
  induction lsu with
  | nil => intro m h; exact h
  | cons r rs ih =>
    intro m h
    rw [List.foldl_cons]
    exact ih _ (processReview_keysNodup targetReviews targetDishes targetRestaurants reviews
      su m r h)

lemma buildCandidates_keysNodup (targetReviews : List Review)
    (targetDishes targetRestaurants : List String) (reviews : List Review)
    (sims : List SimUser) :
    ((buildCandidates targetReviews targetDishes targetRestaurants reviews sims).map
      Prod.fst).Nodup := by
  unfold buildCandidates
  suffices h : ∀ (l : List SimUser) (m : CandMap), (m.map Prod.fst).Nodup →
      ((l.foldl (fun m su => (userReviews su.userId reviews).foldl
        (processReview targetReviews targetDishes targetRestaurants reviews su) m) m).map
        Prod.fst).Nodup by
    exact h sims [] (by simp)
  intro l
  induction l with
  | nil => intro m h; exact h
  | cons su rest ih =>
    intro m h
    rw [List.foldl_cons]
    exact ih _ (foldl_processReview_keysNodup targetReviews targetDishes targetRestaurants
      reviews su (userReviews su.userId reviews) m h)

lemma processReview_supOf_mono (targetReviews : List Review)
    (targetDishes targetRestaurants : List String) (reviews : List Review)
    (su : SimUser) (m : CandMap) (review : Review) (key : String) :
    ∀ s ∈ supOf m key,
      s ∈ supOf (processReview targetReviews targetDishes targetRestaurants reviews su m review)
        key := by
  intro s hs
  simp only [processReview]
  by_cases h1 : dishKey review ∈ targetDishes
  · rw [if_pos h1]; exact hs
  · rw [if_neg h1]
    by_cases h2 : review.rating < 4
    · rw [if_pos h2]; exact hs
    · rw [if_neg h2]
      rcases hcl : lookupCand m (dishKey review) with _ | c
      · rcases hmk : lookupCand m key with _ | c0
        · rw [supOf_of_lookup_none hmk] at hs
          exact absurd hs (List.not_mem_nil s)
        · rw [supOf_of_lookup hmk] at hs
          rw [supOf_of_lookup (lookupCand_append_left _ hmk)]
          exact hs
      · by_cases hkk : key = dishKey review
        · rw [← hkk] at hcl
          rw [supOf_of_lookup hcl] at hs
          rw [supOf_of_lookup (by rw [← hkk]; exact setCand_lookup_eq _ hcl)]
          exact List.mem_append_left _ hs
        · rw [supOf, setCand_lookup_ne _ hkk]
          exact hs

lemma processReview_supOf_gain (targetReviews : List Review)
    (targetDishes targetRestaurants : List String) (reviews : List Review)
    (su : SimUser) (m : CandMap) (review : Review)
    (hkey : dishKey review ∉ targetDishes) (hr4 : 4 ≤ review.rating) :
    ∃ s ∈ supOf (processReview targetReviews targetDishes targetRestaurants reviews su m review)
        (dishKey review), s.neighbor_id = su.userId := by
  simp only [processReview, if_neg hkey, if_neg (not_lt.mpr hr4)]
  rcases hcl : lookupCand m (dishKey review) with _ | c
  · rw [supOf_of_lookup (by
      rw [lookupCand_append_none _ hcl, lookupCand, if_pos rfl])]
    exact ⟨_, List.mem_singleton_self _, rfl⟩
  · rw [supOf_of_lookup (setCand_lookup_eq _ hcl)]
    exact ⟨_, List.mem_append_right _ (List.mem_singleton_self _), rfl⟩

lemma foldl_supOf_mono (targetReviews : List Review)
    (targetDishes targetRestaurants : List String) (reviews : List Review)
    (su : SimUser) (lsu : List Review) (key : String) :
    ∀ (m : CandMap) (s : Supporter), s ∈ supOf m key →
      s ∈ supOf (lsu.foldl
        (processReview targetReviews targetDishes targetRestaurants reviews su) m) key := by
  induction lsu with
  | nil => intro m s hs; exact hs
  | cons r rs ih =>
    intro m s hs
    rw [List.foldl_cons]
    exact ih _ s (processReview_supOf_mono targetReviews targetDishes targetRestaurants
      reviews su m r key s hs)

lemma foldl_supOf_gain (targetReviews : List Review)
    (targetDishes targetRestaurants : List String) (reviews : List Review)
    (su : SimUser) (lsu : List Review) (r : Review) (hr : r ∈ lsu)
    (hkey : dishKey r ∉ targetDishes) (hr4 : 4 ≤ r.rating) :
    ∀ m : CandMap,
      ∃ s ∈ supOf (lsu.foldl
        (processReview targetReviews targetDishes targetRestaurants reviews su) m) (dishKey r),
        s.neighbor_id = su.userId := by
  induction lsu with
  | nil => exact absurd hr (List.not_mem_nil r)
  | cons x xs ih =>
    intro m
    rw [List.foldl_cons]
    rcases List.mem_cons.mp hr with rfl | hr'
    · obtain ⟨s, hs, hsid⟩ := processReview_supOf_gain targetReviews targetDishes
        targetRestaurants reviews su m r hkey hr4
      exact ⟨s, foldl_supOf_mono targetReviews targetDishes targetRestaurants reviews su xs
        (dishKey r) _ s hs, hsid⟩
    · exact ih hr' _

lemma outer_supOf_mono (targetReviews : List Review)
    (targetDishes targetRestaurants : List String) (reviews : List Review)
    (sims : List SimUser) (key : String) :
    ∀ (m : CandMap) (s : Supporter), s ∈ supOf m key →
      s ∈ supOf (sims.foldl (fun m su => (userReviews su.userId reviews).foldl
        (processReview targetReviews targetDishes targetRestaurants reviews su) m) m) key := by
  induction sims with
  | nil => intro m s hs; exact hs
  | cons su rest ih =>
    intro m s hs
    rw [List.foldl_cons]
    exact ih _ s (foldl_supOf_mono targetReviews targetDishes targetRestaurants reviews su
      (userReviews su.userId reviews) key m s hs)

lemma outer_supOf_gain (targetReviews : List Review)
    (targetDishes targetRestaurants : List String) (reviews : List Review)
    (sims : List SimUser) (su : SimUser) (hsu : su ∈ sims) (r : Review)
    (hr : r ∈ reviews) (hruid : r.user_id = su.userId)
    (hkey : dishKey r ∉ targetDishes) (hr4 : 4 ≤ r.rating) :
    ∀ m : CandMap,
      ∃ s ∈ supOf (sims.foldl (fun m su' => (userReviews su'.userId reviews).foldl
          (processReview targetReviews targetDishes targetRestaurants reviews su') m) m)
        (dishKey r), s.neighbor_id = su.userId := by
  induction sims with
  | nil => exact absurd hsu (List.not_mem_nil su)
  | cons x rest ih =>
    intro m
    rw [List.foldl_cons]
    rcases List.mem_cons.mp hsu with rfl | hsu'
    · obtain ⟨s, hs, hsid⟩ := foldl_supOf_gain targetReviews targetDishes targetRestaurants
        reviews su (userReviews su.userId reviews) r
        ((mem_userReviews su.userId reviews r).mpr ⟨hr, hruid⟩) hkey hr4 m
      exact ⟨s, outer_supOf_mono targetReviews targetDishes targetRestaurants reviews rest
        (dishKey r) _ s hs, hsid⟩
    · exact ih hsu' _

/-! ### Uniqueness facts about the fixture and the retained neighbors -/

/-- No user rates the same dish key twice in the fixture. -/
lemma reviews_user_dishKey_unique :
    List.Pairwise (fun a b => a.user_id ≠ b.user_id ∨ dishKey a ≠ dishKey b) REVIEW_DATA := by
  decide

/-- Within the fixture, equal dish keys mean equal (dish, restaurant) pairs
(no name contains the `@` separator). -/
lemma dishKey_inj_on_data : ∀ r1 ∈ REVIEW_DATA, ∀ r2 ∈ REVIEW_DATA, dishKey r1 = dishKey r2 →
    r1.dish_name = r2.dish_name ∧ r1.restaurant_name = r2.restaurant_name := by
  decide

lemma userReviews_keys_pairwise (uid : ℕ) :
    List.Pairwise (fun r1 r2 => dishKey r1 ≠ dishKey r2) (userReviews uid REVIEW_DATA) := by
  have hsub : List.Sublist (userReviews uid REVIEW_DATA) REVIEW_DATA := List.filter_sublist _
  have hp := List.Pairwise.sublist hsub reviews_user_dishKey_unique
  refine hp.imp_of_mem ?_
  intro a b ha hb hr
  have hua := ((mem_userReviews uid REVIEW_DATA a).mp ha).2
  have hub := ((mem_userReviews uid REVIEW_DATA b).mp hb).2
  rcases hr with h | h
  · exact absurd (hua.trans hub.symm) h
  · exact h

lemma similarUsers_ids_nodup (targetUserId : ℕ) (reviews : List Review) :
    ((similarUsers targetUserId reviews).map SimUser.userId).Nodup := by
  simp only [similarUsers]
  set mk := fun uid' => SimUser.mk uid'
    (calculateUserSimilarity targetUserId uid' reviews).similarity
    (calculateUserSimilarity targetUserId uid' reviews).commonRestaurants with hmk
  have h0 : (otherUserIds targetUserId).Nodup := List.Nodup.filter _ (by decide)
  have h1 : (((otherUserIds targetUserId).map mk).map SimUser.userId).Nodup := by
    rw [List.map_map]
    have hco : SimUser.userId ∘ mk = id := rfl
    rw [hco, List.map_id]
    exact h0
  have h2 : ((((otherUserIds targetUserId).map mk).filter keepSimUser).map
      SimUser.userId).Nodup :=
    List.Nodup.sublist (List.Sublist.map SimUser.userId (List.filter_sublist _)) h1
  have h3 : (((List.insertionSort simGE
      (((otherUserIds targetUserId).map mk).filter keepSimUser))).map SimUser.userId).Nodup := by
    refine (List.Perm.nodup_iff ?_).mpr h2
    exact List.Perm.map SimUser.userId (List.perm_insertionSort simGE _)
  exact List.Nodup.sublist (List.Sublist.map SimUser.userId (List.take_sublist 3 _)) h3

lemma processReview_idsInv (targetReviews : List Review)
    (targetDishes targetRestaurants : List String) (reviews : List Review)
    (doneIds : List ℕ) (su : SimUser) (review : Review) (rs : List Review)
    (hnotdone : su.userId ∉ doneIds)
    (hdistinct : ∀ r ∈ rs, dishKey r ≠ dishKey review)
    (m : CandMap)
    (hm : ∀ kc ∈ m, (kc.2.supporters.map Supporter.neighbor_id).Nodup ∧
      ∀ s ∈ kc.2.supporters, s.neighbor_id ∈ doneIds ∨
        (s.neighbor_id = su.userId ∧ ∀ r ∈ review :: rs, dishKey r ≠ kc.1)) :
    ∀ kc ∈ processReview targetReviews targetDishes targetRestaurants reviews su m review,
      (kc.2.supporters.map Supporter.neighbor_id).Nodup ∧
      ∀ s ∈ kc.2.supporters, s.neighbor_id ∈ doneIds ∨
        (s.neighbor_id = su.userId ∧ ∀ r ∈ rs, dishKey r ≠ kc.1) := by
  have hweak : ∀ kc ∈ m, (kc.2.supporters.map Supporter.neighbor_id).Nodup ∧
      ∀ s ∈ kc.2.supporters, s.neighbor_id ∈ doneIds ∨
        (s.neighbor_id = su.userId ∧ ∀ r ∈ rs, dishKey r ≠ kc.1) := by
    intro kc hkc
    refine ⟨(hm kc hkc).1, ?_⟩
    intro s hs
    rcases (hm kc hkc).2 s hs with h | ⟨he, hall⟩
    · exact Or.inl h
    · exact Or.inr ⟨he, fun r hr => hall r (List.mem_cons_of_mem _ hr)⟩
  intro kc hkc
  simp only [processReview] at hkc
  by_cases h1 : dishKey review ∈ targetDishes
  · rw [if_pos h1] at hkc; exact hweak kc hkc
  · rw [if_neg h1] at hkc
    by_cases h2 : review.rating < 4
    · rw [if_pos h2] at hkc; exact hweak kc hkc
    · rw [if_neg h2] at hkc
      rcases hcl : lookupCand m (dishKey review) with _ | c
      · rw [hcl] at hkc
        rcases List.mem_append.mp hkc with hold | hnew
        · exact hweak kc hold
        · rw [List.mem_singleton.mp hnew]
          refine ⟨by simp, ?_⟩
          intro s hs
          rw [List.mem_singleton.mp hs]
          exact Or.inr ⟨rfl, fun r hr => hdistinct r hr⟩
      · rw [hcl] at hkc
        rcases setCand_subset m (dishKey review) _ kc hkc with hold | heq
        · exact hweak kc hold
        · have hc := hm (dishKey review, c) (lookupCand_mem m (dishKey review) c hcl)
          have oldIn : ∀ s ∈ c.supporters, s.neighbor_id ∈ doneIds := by
            intro s hs
            rcases hc.2 s hs with h | ⟨-, hall⟩
            · exact h
            · exact absurd rfl (hall review (List.mem_cons_self _ _))
          rw [heq]
          constructor
          · show ((c.supporters ++ [_]).map Supporter.neighbor_id).Nodup
            rw [List.map_append]
            refine List.Nodup.append hc.1 (by simp) ?_
            intro id hid1 hid2
            simp only [List.map_cons, List.map_nil, List.mem_singleton] at hid2
            obtain ⟨s0, hs0, hs0id⟩ := List.mem_map.mp hid1
            rw [hid2] at hs0id
            exact hnotdone (hs0id ▸ oldIn s0 hs0)
          · intro s hs
            rcases List.mem_append.mp hs with hsold | hsnew
            · exact Or.inl (oldIn s hsold)
            · rw [List.mem_singleton.mp hsnew]
              exact Or.inr ⟨rfl, fun r hr => hdistinct r hr⟩

lemma foldl_processReview_idsInv (targetReviews : List Review)
    (targetDishes targetRestaurants : List String) (reviews : List Review)
    (doneIds : List ℕ) (su : SimUser) (hnotdone : su.userId ∉ doneIds) :
    ∀ (lsu : List Review),
      List.Pairwise (fun r1 r2 => dishKey r1 ≠ dishKey r2) lsu →
      ∀ m : CandMap,
      (∀ kc ∈ m, (kc.2.supporters.map Supporter.neighbor_id).Nodup ∧
        ∀ s ∈ kc.2.supporters, s.neighbor_id ∈ doneIds ∨
          (s.neighbor_id = su.userId ∧ ∀ r ∈ lsu, dishKey r ≠ kc.1)) →
      ∀ kc ∈ lsu.foldl
        (processReview targetReviews targetDishes targetRestaurants reviews su) m,
        (kc.2.supporters.map Supporter.neighbor_id).Nodup ∧
        ∀ s ∈ kc.2.supporters, s.neighbor_id ∈ doneIds ++ [su.userId] := by
  intro lsu
  induction lsu with
  | nil =>
    intro _ m hm kc hkc
    refine ⟨(hm kc hkc).1, ?_⟩
    intro s hs
    rcases (hm kc hkc).2 s hs with h | ⟨he, -⟩
    · exact List.mem_append_left _ h
    · rw [he]
      exact List.mem_append_right _ (List.mem_singleton_self _)
  | cons rev rs ih =>
    intro hpair m hm
    rw [List.foldl_cons]
    have hpc := List.pairwise_cons.mp hpair
    refine ih hpc.2 _ ?_
    exact processReview_idsInv targetReviews targetDishes targetRestaurants reviews doneIds
      su rev rs hnotdone (fun r hr => (hpc.1 r hr).symm) m hm

lemma build_idsNodup (targetReviews : List Review)
    (targetDishes targetRestaurants : List String) :
    ∀ (sims : List SimUser) (doneIds : List ℕ) (m : CandMap),
      (∀ su ∈ sims, su.userId ∉ doneIds) →
      (sims.map SimUser.userId).Nodup →
      (∀ kc ∈ m, (kc.2.supporters.map Supporter.neighbor_id).Nodup ∧
        ∀ s ∈ kc.2.supporters, s.neighbor_id ∈ doneIds) →
      ∀ kc ∈ sims.foldl (fun m su => (userReviews su.userId REVIEW_DATA).foldl
          (processReview targetReviews targetDishes targetRestaurants REVIEW_DATA su) m) m,
        (kc.2.supporters.map Supporter.neighbor_id).Nodup := by
  intro sims
  induction sims with
  | nil => intro doneIds m _ _ hm kc hkc; exact (hm kc hkc).1
  | cons su rest ih =>
    intro doneIds m hnd hnodup hm
    rw [List.foldl_cons]
    rw [List.map_cons, List.nodup_cons] at hnodup
    refine ih (doneIds ++ [su.userId]) _ ?_ hnodup.2 ?_
    · intro su' hsu' hmem
      rcases List.mem_append.mp hmem with h | h
      · exact hnd su' (List.mem_cons_of_mem _ hsu') h
      · have heq := List.mem_singleton.mp h
        apply hnodup.1
        rw [← heq]
        exact List.mem_map_of_mem SimUser.userId hsu'
    · refine foldl_processReview_idsInv targetReviews targetDishes targetRestaurants
        REVIEW_DATA doneIds su (hnd su (List.mem_cons_self _ _))
        (userReviews su.userId REVIEW_DATA) (userReviews_keys_pairwise su.userId) m ?_
      intro kc hkc
      exact ⟨(hm kc hkc).1, fun s hs => Or.inl ((hm kc hkc).2 s hs)⟩

/-- C9: for every returned recommendation, the supporters are exactly the
retained neighbors who rated that (dish, restaurant) at 4 or above — each such
neighbor appears (completeness), only such neighbors appear with their actual
fixture rating (soundness), and no neighbor appears twice (uniqueness). -/
theorem supporters_exactly_qualifying_neighbors (targetUserId topN : ℕ) :
    List.Forall (fun rec =>
      (∀ s ∈ rec.supporters,
        s.neighbor_id ∈ (similarUsers targetUserId REVIEW_DATA).map SimUser.userId ∧
        4 ≤ s.rating ∧
        ∃ r ∈ REVIEW_DATA, r.user_id = s.neighbor_id ∧ r.dish_name = rec.dish_name ∧
          r.restaurant_name = rec.restaurant ∧ r.rating = s.rating) ∧
      (∀ su ∈ similarUsers targetUserId REVIEW_DATA, ∀ r ∈ REVIEW_DATA,
        r.user_id = su.userId → r.dish_name = rec.dish_name →
        r.restaurant_name = rec.restaurant → 4 ≤ r.rating →
        su.userId ∈ rec.supporters.map Supporter.neighbor_id) ∧
      (rec.supporters.map Supporter.neighbor_id).Nodup)
      (getTypeScriptRecommendations targetUserId topN) := by
  rw [List.forall_iff_forall_mem]
  intro rec hrec
  obtain ⟨kc, hkc, hrec_eq⟩ := mem_recommendations targetUserId topN rec hrec
  have hinv := buildCandidates_inv _ _ _ _
    ((similarUsers targetUserId REVIEW_DATA).map SimUser.userId) _
    (fun su hsu => ⟨(mem_similarUsers targetUserId REVIEW_DATA su hsu).1,
      List.mem_map_of_mem SimUser.userId hsu⟩) kc hkc
  have hsupp : rec.supporters = kc.2.supporters := by rw [hrec_eq]
  have hdish : rec.dish_name = kc.2.dish_name := by rw [hrec_eq]
  have hrest : rec.restaurant = kc.2.restaurant := by rw [hrec_eq]
  refine ⟨?_, ?_, ?_⟩
  · intro s hs
    rw [hsupp] at hs
    obtain ⟨hpos, hid, r, hr, hruid, hkeyr, hrat, hr4⟩ := hinv.sup_ok s hs
    obtain ⟨r0, hr0, hr0d, hr0r⟩ := hinv.cand_from
    have hkey0 : dishKey r0 = kc.1 := by rw [dishKey, hr0d, hr0r, hinv.key_eq]
    have hinj := dishKey_inj_on_data r hr r0 hr0 (by rw [hkeyr, hkey0])
    refine ⟨hid, hrat ▸ hr4, r, hr, hruid, ?_, ?_, hrat⟩
    · rw [hinj.1, hr0d, hdish]
    · rw [hinj.2, hr0r, hrest]
  · intro su hsu r hr hruid hrd hrr hr4
    have hkeyr : dishKey r = kc.1 := by
      rw [dishKey, hrd, hrr, hdish, hrest, hinv.key_eq]
    have hkeynot : dishKey r ∉ (userReviews targetUserId REVIEW_DATA).map dishKey := by
      rw [hkeyr]
      exact hinv.key_not_target
    obtain ⟨s, hs, hsid⟩ := outer_supOf_gain (userReviews targetUserId REVIEW_DATA)
      ((userReviews targetUserId REVIEW_DATA).map dishKey)
      (uniqueList ((userReviews targetUserId REVIEW_DATA).map Review.restaurant_name))
      REVIEW_DATA (similarUsers targetUserId REVIEW_DATA) su hsu r hr hruid hkeynot hr4 []
    have hlook : lookupCand (buildCandidates (userReviews targetUserId REVIEW_DATA)
        ((userReviews targetUserId REVIEW_DATA).map dishKey)
        (uniqueList ((userReviews targetUserId REVIEW_DATA).map Review.restaurant_name))
        REVIEW_DATA (similarUsers targetUserId REVIEW_DATA)) kc.1 = some kc.2 :=
      lookupCand_of_mem_keysNodup (buildCandidates_keysNodup _ _ _ _ _) hkc
    have hs' : s ∈ supOf (buildCandidates (userReviews targetUserId REVIEW_DATA)
        ((userReviews targetUserId REVIEW_DATA).map dishKey)
        (uniqueList ((userReviews targetUserId REVIEW_DATA).map Review.restaurant_name))
        REVIEW_DATA (similarUsers targetUserId REVIEW_DATA)) (dishKey r) := hs
    rw [hkeyr, supOf_of_lookup hlook] at hs'
    rw [hsupp]
    exact List.mem_map.mpr ⟨s, hs', hsid⟩
  · rw [hsupp]
    refine build_idsNodup (userReviews targetUserId REVIEW_DATA)
      ((userReviews targetUserId REVIEW_DATA).map dishKey)
      (uniqueList ((userReviews targetUserId REVIEW_DATA).map Review.restaurant_name))
      (similarUsers targetUserId REVIEW_DATA) [] [] (by simp)
      (similarUsers_ids_nodup targetUserId REVIEW_DATA) (by simp) kc hkc

/-! ### In-flight caching (`favoritesService.ts` / `dashboardService.ts`)

The async functions are modelled as atomic state transitions observed between
calls: `cachedFavorites` is the module-level cache, `loadingInFlight` the
`loadingPromise !== null` marker (always cleared by the `finally` before the
promise resolves, so a sequential caller observes it false), and the network
outcomes of the inner `generateRestaurantData` calls are passed in as data
(`none` = that call threw and was caught by the inner `catch`).  `fetched`
records whether the call started a new fetch rather than serving the cache or
the pending promise. -/

/-- Module-level state of `favoritesService.ts`. -/
structure FavCacheState where
  cachedFavorites : Option (List String)
  loadingInFlight : Bool
deriving DecidableEq

/-- Observable effect of one `loadDefaultFavorites()` call. -/
structure FavCall where
  state : FavCacheState
  result : List String
  fetched : Bool
deriving DecidableEq

/-- One sequential call to `loadDefaultFavorites()`.  A cached value is
returned as-is; an in-flight call would be joined (no new fetch); otherwise
the two default restaurants are fetched, failures are swallowed per-restaurant,
and the surviving favorites — possibly the empty list — are cached, with the
in-flight marker cleared by `finally`. -/
def loadDefaultFavorites (st : FavCacheState) (outcomes : List (Option String)) : FavCall :=
  match st.cachedFavorites with
  | some v => ⟨st, v, false⟩
  | none =>
    if st.loadingInFlight then ⟨st, [], false⟩
    else
      let favorites := outcomes.filterMap id
      ⟨⟨some favorites, false⟩, favorites, true⟩

/-- Model of `clearFavoritesCache()`. -/
def clearFavoritesCache (_ : FavCacheState) : FavCacheState :=
  ⟨none, false⟩

/-- Module-level state of `dashboardService.ts`. -/
structure DashState where
  cachedRecommendations : Option (List String × List String × List String)
  loadingInFlight : Bool
deriving DecidableEq

/-- Observable effect of one `generateDashboardRecommendations()` call. -/
structure DashCall where
  state : DashState
  result : List String × List String × List String
  fetched : Bool
deriving DecidableEq

/-- One sequential call to `generateDashboardRecommendations()`.  `failed`
models the outer `catch` firing, whose handler caches the empty record. -/
def generateDashboardRecommendations (st : DashState)
    (s1 s2 s3 : List String) (failed : Bool) : DashCall :=
  match st.cachedRecommendations with
  | some v => ⟨st, v, false⟩
  | none =>
    if st.loadingInFlight then ⟨st, ([], [], []), false⟩
    else if failed then ⟨⟨some ([], [], []), false⟩, ([], [], []), true⟩
    else ⟨⟨some (s1, s2, s3), false⟩, (s1, s2, s3), true⟩

/-- C10 counterexample: starting from a fresh state, a fully failed favorites
fetch does clear the in-flight marker, but it caches the empty list, so the
next call — even with the network healthy again — performs no new fetch and
returns the cached empty result.  This refutes "a subsequent call performs a
new fetch (a retry)". -/
theorem failed_favorites_fetch_is_not_retried :
    (loadDefaultFavorites ⟨none, false⟩ [none, none]).state.loadingInFlight = false ∧
    (loadDefaultFavorites ⟨none, false⟩ [none, none]).state.cachedFavorites = some [] ∧
    (loadDefaultFavorites (loadDefaultFavorites ⟨none, false⟩ [none, none]).state
      [some "Dishoom", some "Vapiano"]).fetched = false ∧
    (loadDefaultFavorites (loadDefaultFavorites ⟨none, false⟩ [none, none]).state
      [some "Dishoom", some "Vapiano"]).result = [] := by
  decide

/-- C10 amended: after a failed fetch both services clear the in-flight marker
(no wedging on a stale pending handle), but both cache the empty result, so a
subsequent call serves that cache without a new fetch; only an explicit
`clearFavoritesCache` makes the next call fetch again. -/
theorem failed_fetch_clears_marker_but_caches_empty
    (st : FavCacheState) (outcomes retryOutcomes : List (Option String))
    (hcache : st.cachedFavorites = none) (hflight : st.loadingInFlight = false)
    (hfail : outcomes.filterMap id = []) :
    (loadDefaultFavorites st outcomes).state.loadingInFlight = false ∧
    (loadDefaultFavorites st outcomes).state.cachedFavorites = some [] ∧
    (loadDefaultFavorites st outcomes).fetched = true ∧
    (loadDefaultFavorites (loadDefaultFavorites st outcomes).state retryOutcomes).fetched
      = false ∧
    (loadDefaultFavorites (loadDefaultFavorites st outcomes).state retryOutcomes).result = [] ∧
    (loadDefaultFavorites (clearFavoritesCache (loadDefaultFavorites st outcomes).state)
      retryOutcomes).fetched = true ∧
    (∀ (dst : DashState) (s1 s2 s3 : List String),
      dst.cachedRecommendations = none → dst.loadingInFlight = false →
      (generateDashboardRecommendations dst s1 s2 s3 true).state.loadingInFlight = false ∧
      (generateDashboardRecommendations dst s1 s2 s3 true).state.cachedRecommendations =
        some ([], [], []) ∧
      (generateDashboardRecommendations
        (generateDashboardRecommendations dst s1 s2 s3 true).state s1 s2 s3 false).fetched
        = false) := by
  obtain ⟨c, f⟩ := st
  simp only at hcache hflight
  subst hcache
  subst hflight
  have h1 : loadDefaultFavorites ⟨none, false⟩ outcomes = ⟨⟨some [], false⟩, [], true⟩ := by
    simp [loadDefaultFavorites, hfail]
  rw [h1]
  refine ⟨rfl, rfl, rfl, rfl, rfl, rfl, ?_⟩
  intro dst s1 s2 s3 hdc hdf
  obtain ⟨dc, df⟩ := dst
  simp only at hdc hdf
  subst hdc
  subst hdf
  exact ⟨rfl, rfl, rfl⟩

theorem failed_fetch_clears_marker_but_caches_empty_witness :
    ((⟨none, false⟩ : FavCacheState).cachedFavorites = none ∧
      (⟨none, false⟩ : FavCacheState).loadingInFlight = false ∧
      ([none, none] : List (Option String)).filterMap id = []) ∧
    (loadDefaultFavorites ⟨none, false⟩ [none, none]).state.cachedFavorites = some [] ∧
    (loadDefaultFavorites (loadDefaultFavorites ⟨none, false⟩ [none, none]).state
      [some "Dishoom"]).fetched = false ∧
    (loadDefaultFavorites (clearFavoritesCache
      (loadDefaultFavorites ⟨none, false⟩ [none, none]).state) [some "Dishoom"]).fetched
      = true ∧
    (generateDashboardRecommendations
      (generateDashboardRecommendations ⟨none, false⟩ [] [] [] true).state [] [] []
      false).fetched = false :=
  ⟨⟨by decide, by decide, by decide⟩,
   (failed_fetch_clears_marker_but_caches_empty ⟨none, false⟩ [none, none] [some "Dishoom"]
      (by decide) (by decide) (by decide)).2.1,
   (failed_fetch_clears_marker_but_caches_empty ⟨none, false⟩ [none, none] [some "Dishoom"]
      (by decide) (by decide) (by decide)).2.2.2.1,
   (failed_fetch_clears_marker_but_caches_empty ⟨none, false⟩ [none, none] [some "Dishoom"]
      (by decide) (by decide) (by decide)).2.2.2.2.2.1,
   ((failed_fetch_clears_marker_but_caches_empty ⟨none, false⟩ [none, none] [some "Dishoom"]
      (by decide) (by decide) (by decide)).2.2.2.2.2.2 ⟨none, false⟩ [] [] []
      rfl rfl).2.2⟩

end AgentVerse
